import Mathlib

/-!
# BOI Filing Tool — verification of the core data-transformation logic

A shallow embedding of the core functions of `app.py` of the BOI filing tool
(the Row Selector `select_rows`, the Florida fixed-width parser
`process_florida`, the Washington and West Virginia CSV transformers, and the
Combiner), together with theorems settling the specification claims.

Strings are modelled as `List Char` (Python `str` restricted to the ASCII
behaviour of the relevant operations); raw file content is `List Nat`
(bytes); a missing tabular cell (pandas `NaN`) is `Option.none`; an operation
that can raise a `KeyError` returns `Except (List Char) _` carrying the
missing key.
-/

/-! ## Python primitive string operations -/

/-- The whitespace characters stripped by Python's `str.strip()` and matched
by `\s` (ASCII range). -/
def isPyWsCh (c : Char) : Bool :=
  c = ' ' || c = '\t' || c = '\n' || c = '\r' || c = '\x0b' || c = '\x0c'

/-- Python `str.lstrip()`. -/
def pyLStrip (cs : List Char) : List Char := cs.dropWhile isPyWsCh

/-- Python `str.rstrip()` (no argument: whitespace). -/
def pyRStrip (cs : List Char) : List Char := (cs.reverse.dropWhile isPyWsCh).reverse

/-- Python `str.strip()`. -/
def pyStrip (cs : List Char) : List Char := pyRStrip (pyLStrip cs)

/-- Python `str.rstrip(chars)`: remove trailing characters drawn from `bad`. -/
def pyRStripSet (bad : List Char) (cs : List Char) : List Char :=
  (cs.reverse.dropWhile (fun c => bad.contains c)).reverse

/-- Python `str.lower()` (ASCII). -/
def pyLower (cs : List Char) : List Char := cs.map Char.toLower

/-- Python `str.upper()` (ASCII). -/
def pyUpper (cs : List Char) : List Char := cs.map Char.toUpper

/-- Python `s.startswith(p)` on lists of characters. -/
def listPfx : List Char → List Char → Bool
  | [], _ => true
  | _ :: _, [] => false
  | a :: as, b :: bs => a == b && listPfx as bs

/-- Python `str.split(sep)` for a one-character separator: keeps empty
pieces, `"".split(sep) == [""]`. -/
def splitOnCh (sep : Char) : List Char → List (List Char)
  | [] => [[]]
  | c :: cs =>
      if c = sep then [] :: splitOnCh sep cs
      else
        match splitOnCh sep cs with
        | t :: ts => (c :: t) :: ts
        | [] => [[c]]

theorem dropWhile_length_le (p : α → Bool) (l : List α) :
    (l.dropWhile p).length ≤ l.length := by
  induction l with
  | nil => simp [List.dropWhile]
  | cons c cs ih =>
    simp only [List.dropWhile]
    split
    · exact Nat.le_succ_of_le ih
    · exact Nat.le_refl _

/-- Python `str.split()` with no argument: split on whitespace runs,
discarding empty pieces. -/
def pySplitWs : List Char → List (List Char)
  | [] => []
  | c :: cs =>
      if isPyWsCh c then pySplitWs cs
      else
        (c :: cs.takeWhile (fun x => !isPyWsCh x)) ::
          pySplitWs (cs.dropWhile (fun x => !isPyWsCh x))
termination_by l => l.length
decreasing_by
  · simp only [List.length_cons]; omega
  · simp only [List.length_cons]
    exact Nat.lt_succ_of_le (dropWhile_length_le _ _)

/-- Digit-string body of Python `int()`: decimal digits with single
underscores allowed between digits (`prevU` records whether the previous
character was an underscore; start with `prevU = true` so a leading
underscore, or the empty string, is rejected). -/
def pyIntDigits (acc : Nat) (prevU : Bool) : List Char → Option Nat
  | [] => if prevU then none else some acc
  | c :: cs =>
      if c = '_' then
        if prevU then none else pyIntDigits acc true cs
      else if c.isDigit then
        pyIntDigits (acc * 10 + (c.toNat - 48)) false cs
      else none

/-- Python `int(s)` for a decimal string: surrounding whitespace stripped,
an optional sign, then digits; `none` models the `ValueError`. -/
def pyInt (cs : List Char) : Option Int :=
  match pyStrip cs with
  | [] => none
  | c :: ds =>
      if c = '-' then (pyIntDigits 0 true ds).map (fun n => -(n : Int))
      else if c = '+' then (pyIntDigits 0 true ds).map (fun n => (n : Int))
      else (pyIntDigits 0 true (c :: ds)).map (fun n => (n : Int))

/-- `df.head(n)` (pandas): first `n` rows; a negative `n` means all rows but
the last `|n|`. -/
def pdHead (n : Int) (xs : List α) : List α :=
  if 0 ≤ n then xs.take n.toNat else xs.take (xs.length - (-n).toNat)

/-- `df.tail(n)` (pandas): last `n` rows; a negative `n` means all rows but
the first `|n|`. -/
def pdTail (n : Int) (xs : List α) : List α :=
  if 0 ≤ n then xs.drop (xs.length - n.toNat) else xs.drop (-n).toNat

/-- `df.iloc[a:b]` (Python slice semantics, including negative indices
counting from the end and clamping of out-of-range bounds). -/
def pdIloc (a b : Int) (xs : List α) : List α :=
  let n := xs.length
  let s := if a < 0 then n - (-a).toNat else min a.toNat n
  let e := if b < 0 then n - (-b).toNat else min b.toNat n
  (xs.drop s).take (e - s)

/-! ## Row Selector (`select_rows` of app.py) -/

/-- Core of `select_rows` over the character list of the selection string. -/
def select_rows_core (xs : List α) (cs : List Char) : List α :=
  if cs.isEmpty then xs
  else
    let c := pyLower (pyStrip cs)
    if c = "all".data then xs
    else if listPfx "first".data c then
      match pySplitWs c with
      | _ :: tok :: _ =>
          match pyInt tok with
          | some n => pdHead n xs
          | none => xs
      | _ => xs
    else if listPfx "last".data c then
      match pySplitWs c with
      | _ :: tok :: _ =>
          match pyInt tok with
          | some n => pdTail n xs
          | none => xs
      | _ => xs
    else if '-' ∈ c then
      match splitOnCh '-' c with
      | [a, b] =>
          match pyInt a, pyInt b with
          | some s, some e => pdIloc (s - 1) e xs
          | _, _ => xs
      | _ => xs
    else xs

/-- `select_rows(df, choice)`: parse the user row-selection string and
return the corresponding subset of the rows. -/
def select_rows (xs : List α) (choice : String) : List α :=
  select_rows_core xs choice.data

/-! ## UTF-8 decoding (`bytes.decode("utf-8", errors=...)`)

`repl` is what an ill-formed byte sequence decodes to: `[]` models
`errors="ignore"`, `['\uFFFD']` models `errors="replace"`.  Invalid input is
skipped one maximal subpart at a time, as CPython's UTF-8 decoder does. -/

def isUtf8Cont (b : Nat) : Bool := 0x80 <= b && b <= 0xBF

/-- One step of UTF-8 decoding: given the first byte and the following
bytes, return the decoded character (`none` for an ill-formed maximal
subpart) and the total number of bytes consumed (at least 1).  The
admissible ranges of the second byte exclude overlong encodings
(0xE0/0xF0), surrogates (0xED) and code points above U+10FFFF (0xF4). -/
def utf8Step (b : Nat) (rest : List Nat) : Option Char × Nat :=
  if b < 0x80 then (some (Char.ofNat b), 1)
  else if 0xC2 <= b && b <= 0xDF then
    match rest with
    | b2 :: _ =>
        if isUtf8Cont b2 then (some (Char.ofNat ((b - 0xC0) * 0x40 + (b2 - 0x80))), 2)
        else (none, 1)
    | [] => (none, 1)
  else if 0xE0 <= b && b <= 0xEF then
    let lo2 := if b = 0xE0 then 0xA0 else 0x80
    let hi2 := if b = 0xED then 0x9F else 0xBF
    match rest with
    | b2 :: b3 :: _ =>
        if lo2 <= b2 && b2 <= hi2 then
          if isUtf8Cont b3 then
            (some (Char.ofNat ((b - 0xE0) * 0x1000 + (b2 - 0x80) * 0x40 + (b3 - 0x80))), 3)
          else (none, 2)
        else (none, 1)
    | [b2] => if lo2 <= b2 && b2 <= hi2 then (none, 2) else (none, 1)
    | [] => (none, 1)
  else if 0xF0 <= b && b <= 0xF4 then
    let lo2 := if b = 0xF0 then 0x90 else 0x80
    let hi2 := if b = 0xF4 then 0x8F else 0xBF
    match rest with
    | b2 :: b3 :: b4 :: _ =>
        if lo2 <= b2 && b2 <= hi2 then
          if isUtf8Cont b3 then
            if isUtf8Cont b4 then
              (some (Char.ofNat ((b - 0xF0) * 0x40000 + (b2 - 0x80) * 0x1000 +
                  (b3 - 0x80) * 0x40 + (b4 - 0x80))), 4)
            else (none, 3)
          else (none, 2)
        else (none, 1)
    | [b2, b3] =>
        if lo2 <= b2 && b2 <= hi2 then (if isUtf8Cont b3 then (none, 3) else (none, 2))
        else (none, 1)
    | [b2] => if lo2 <= b2 && b2 <= hi2 then (none, 2) else (none, 1)
    | [] => (none, 1)
  else (none, 1)

def utf8DecodeWith (repl : List Char) : List Nat → List Char
  | [] => []
  | b :: rest =>
    let s := utf8Step b rest
    (match s.1 with | some c => [c] | none => repl) ++
      utf8DecodeWith repl (rest.drop (s.2 - 1))
termination_by l => l.length
decreasing_by
  simp only [List.length_cons]
  have := List.length_drop ((utf8Step b rest).2 - 1) rest
  omega

/-! ## Python `str.splitlines()` -/

/-- The one-character line terminators of Python `str.splitlines()`
(besides these, `\r\n` counts as a single terminator). -/
def isLineBrkCh (c : Char) : Bool :=
  c = '\n' || c = '\r' || c = '\x0b' || c = '\x0c' ||
  c = '\x1c' || c = '\x1d' || c = '\x1e' || c = '\x85' ||
  c = '\u2028' || c = '\u2029'

def pySplitlinesGo (cur : List Char) : List Char → List (List Char)
  | [] => [cur.reverse]
  | '\r' :: '\n' :: rest => cur.reverse :: pySplitlinesGo [] rest
  | c :: rest =>
    if isLineBrkCh c then cur.reverse :: pySplitlinesGo [] rest
    else pySplitlinesGo (c :: cur) rest

/-- Python `str.splitlines()`: split at line terminators (`\r\n` counting
as one), with no trailing empty line. -/
def pySplitlines (cs : List Char) : List (List Char) :=
  let r := pySplitlinesGo [] cs
  if r.getLast? = some [] then r.dropLast else r

/-! ## Dates (`pd.to_datetime`) -/

/-- A calendar date as carried by a pandas `Timestamp` (midnight). -/
structure PyDate where
  y : Nat
  m : Nat
  d : Nat
deriving DecidableEq, Repr

def isLeapYear (y : Nat) : Bool := y % 4 = 0 && (y % 100 ≠ 0 || y % 400 = 0)

def daysInMonth (y m : Nat) : Nat :=
  if m = 2 then (if isLeapYear y then 29 else 28)
  else if m = 4 || m = 6 || m = 9 || m = 11 then 30
  else 31

/-- Valid calendar date within the representable `pd.Timestamp` range
(1677-09-22 … 2262-04-11 at midnight); outside it `pd.to_datetime`
raises `OutOfBoundsDatetime` (or coerces to `NaT`). -/
def pyDateValid (dt : PyDate) : Bool :=
  1 ≤ dt.m && dt.m ≤ 12 && 1 ≤ dt.d && dt.d ≤ daysInMonth dt.y dt.m &&
  16770922 ≤ dt.y * 10000 + dt.m * 100 + dt.d &&
  dt.y * 10000 + dt.m * 100 + dt.d ≤ 22620411

def allDigits (cs : List Char) : Bool := !cs.isEmpty && cs.all Char.isDigit

def digitsToNat (cs : List Char) : Nat :=
  cs.foldl (fun a c => a * 10 + (c.toNat - 48)) 0

/-- `pd.to_datetime(s, format="%m/%d/%Y")` on a single string: one or two
digits for month and day, exactly four digits for the year, the whole string
consumed, and a valid in-range calendar date; `none` models the raised
`ValueError`/`NaT`. -/
def parse_mmddyyyy (cs : List Char) : Option PyDate :=
  match splitOnCh '/' cs with
  | [ms, ds, ys] =>
      if allDigits ms && ms.length ≤ 2 && allDigits ds && ds.length ≤ 2 &&
          allDigits ys && ys.length = 4 then
        let dt : PyDate := ⟨digitsToNat ys, digitsToNat ms, digitsToNat ds⟩
        if pyDateValid dt then some dt else none
      else none
  | _ => none

/-- Model of `pd.to_datetime(s, errors="coerce")` with no format (the
flexible dateutil-based parser), restricted to the two unambiguous layouts
that occur in this data: `M/D/YYYY` and `YYYY-MM-DD`.  Everything else is
modelled as unparseable (`NaT`). -/
def pdFlexParseDate (cs : List Char) : Option PyDate :=
  match parse_mmddyyyy cs with
  | some dt => some dt
  | none =>
      match splitOnCh '-' cs with
      | [ys, ms, ds] =>
          if allDigits ys && ys.length = 4 && allDigits ms && ms.length ≤ 2 &&
              allDigits ds && ds.length ≤ 2 then
            let dt : PyDate := ⟨digitsToNat ys, digitsToNat ms, digitsToNat ds⟩
            if pyDateValid dt then some dt else none
          else none
      | _ => none

def padDigits2 (n : Nat) : List Char := [Nat.digitChar (n / 10 % 10), Nat.digitChar (n % 10)]

def padDigits4 (n : Nat) : List Char :=
  [Nat.digitChar (n / 1000 % 10), Nat.digitChar (n / 100 % 10),
   Nat.digitChar (n / 10 % 10), Nat.digitChar (n % 10)]

/-- `Timestamp.strftime("%m/%d/%Y")`. -/
def strfDate (dt : PyDate) : List Char :=
  padDigits2 dt.m ++ '/' :: padDigits2 dt.d ++ '/' :: padDigits4 dt.y

/-! ## The Standard Record and its shape predicates -/

/-- The common seven-column output row:
`Name | Address | City | State | Zipcode | Filing Date | Document Number`. -/
structure StdRecord where
  name : List Char
  address : List Char
  city : List Char
  state : List Char
  zipcode : List Char
  filingDate : List Char
  docNumber : List Char
deriving DecidableEq, Repr

/-- A field that does not consist entirely of whitespace — exactly the
fields that survive `df.replace(r"^\s*$", NA, regex=True).dropna()`. -/
def nonBlank (cs : List Char) : Bool := !(pyStrip cs).isEmpty

def stdAllNonBlank (r : StdRecord) : Bool :=
  nonBlank r.name && nonBlank r.address && nonBlank r.city && nonBlank r.state &&
  nonBlank r.zipcode && nonBlank r.filingDate && nonBlank r.docNumber

/-- The `MM/DD/YYYY` shape: ten characters, digits in the digit positions
and slashes in positions 2 and 5. -/
def dateShape (cs : List Char) : Bool :=
  match cs with
  | [a, b, s1, c, d, s2, e, f, g, h] =>
      a.isDigit && b.isDigit && s1 = '/' && c.isDigit && d.isDigit && s2 = '/' &&
      e.isDigit && f.isDigit && g.isDigit && h.isDigit
  | _ => false

/-- Exactly five decimal digits. -/
def zip5Shape (cs : List Char) : Bool := cs.length = 5 && cs.all Char.isDigit

/-! ## Florida backend (`process_florida`) -/

/-- The ten-column row produced by the Florida parser before projection:
Entity ID | Business Name | Filing Date | Principal Street | Principal City |
Principal ZIP | Mailing Street | Mailing City | Mailing State | Mailing ZIP. -/
structure FlRow where
  entityId : List Char
  businessName : List Char
  filingDate : List Char
  pStreet : List Char
  pCity : List Char
  pZip : List Char
  mStreet : List Char
  mCity : List Char
  mState : List Char
  mZip : List Char
deriving DecidableEq, Repr

/-- `re.search(r"(\d{k})", s)`: the first run of `k` consecutive decimal
digits in `s` (the regex is written `\d{5}` or `\d{8}` in the source). -/
def findDigitRun (k : Nat) : List Char → Option (List Char)
  | [] => none
  | c :: cs =>
      let cand := (c :: cs).take k
      if cand.length = k && cand.all Char.isDigit then some cand
      else findDigitRun k cs

/-- `re.search(r"([A-Z]{2})\s*(\d{5})", s)`: two ASCII uppercase letters,
optional whitespace, then five digits; returns the two capture groups of the
leftmost match. -/
def findStateZip : List Char → Option (List Char × List Char)
  | [] => none
  | [_] => none
  | c :: c2 :: cs2 =>
      if c.isUpper && c2.isUpper then
        if ((cs2.dropWhile isPyWsCh).take 5).length = 5 &&
            ((cs2.dropWhile isPyWsCh).take 5).all Char.isDigit then
          some ([c, c2], (cs2.dropWhile isPyWsCh).take 5)
        else findStateZip (c2 :: cs2)
      else findStateZip (c2 :: cs2)

/-- One splitting step of `re.split(r"\\s{3,}|\\t+", line)`: a run of three
or more whitespace characters, or a run of tabs, separates fields.  (When a
whitespace run of length `k ≥ 3` starts at the current character, dropping
it from `c :: cs` is dropping `k - 1` characters from `cs`; a tab run is a
tab followed by the tabs of `cs`.) -/
def flSplitRaw (cur : List Char) : List Char → List (List Char)
  | [] => [cur.reverse]
  | c :: cs =>
      if 3 ≤ ((c :: cs).takeWhile isPyWsCh).length then
        cur.reverse :: flSplitRaw [] (cs.drop (((c :: cs).takeWhile isPyWsCh).length - 1))
      else if c = '\t' then
        cur.reverse :: flSplitRaw [] (cs.dropWhile (fun x => x = '\t'))
      else flSplitRaw (c :: cur) cs
termination_by l => l.length
decreasing_by
  · have := List.length_drop (((c :: cs).takeWhile isPyWsCh).length - 1) cs
    simp only [List.length_cons]
    omega
  · have := dropWhile_length_le (fun x => x = '\t') cs
    simp only [List.length_cons]
    omega
  · simp only [List.length_cons]
    omega

/-- `split_parts` of `process_florida`: split the line on runs of three or
more whitespace characters or runs of tabs, and keep only the pieces that do
not strip to the empty string. -/
def split_parts (line : List Char) : List (List Char) :=
  (flSplitRaw [] (pyRStripSet ['\n', '\r'] line)).filter (fun p => nonBlank p)

/-- `re.match(r"^[A-Z]\d{11}", line)` at the start of the line. -/
def startsWithEntityId (cs : List Char) : Bool :=
  match cs with
  | c :: rest => c.isUpper && (rest.take 11).length = 11 && (rest.take 11).all Char.isDigit
  | [] => false

/-- `parse_entity_and_name`: decompose the first field into the 12-character
entity code and the trimmed remainder. -/
def parse_entity_and_name (p : List Char) : List Char × List Char :=
  let t := pyStrip p
  if startsWithEntityId t then (t.take 12, pyStrip (t.drop 12)) else ([], [])

/-- `extract_principal`: fields 2–4 give principal street, city (trailing
comma stripped) and ZIP (first 5-digit run of field 4). -/
def extract_principal (parts : List (List Char)) : List Char × List Char × List Char :=
  if parts.length < 5 then ([], [], [])
  else
    (pyStrip (parts.getD 2 []),
     pyRStripSet [','] (pyStrip (parts.getD 3 [])),
     (findDigitRun 5 (parts.getD 4 [])).getD [])

/-- `extract_mailing`: fields 5–7 give mailing street, city (trailing comma
stripped), and a state/ZIP pair extracted from field 7 by regex (no match
leaves state and ZIP empty). -/
def extract_mailing (parts : List (List Char)) :
    List Char × List Char × List Char × List Char :=
  if parts.length < 8 then ([], [], [], [])
  else
    match findStateZip (pyStrip (parts.getD 7 [])) with
    | some (st, z) =>
        (pyStrip (parts.getD 5 []), pyRStripSet [','] (pyStrip (parts.getD 6 [])),
         st, z)
    | none =>
        (pyStrip (parts.getD 5 []), pyRStripSet [','] (pyStrip (parts.getD 6 [])),
         [], [])

/-- `extract_filing_date`: scanning fields from index 8 onward, the first
8-digit run is reformatted `MMDDYYYY → MM/DD/YYYY`. -/
def extract_filing_date (parts : List (List Char)) : List Char :=
  go (parts.drop 8)
where
  go : List (List Char) → List Char
    | [] => []
    | p :: ps =>
        match findDigitRun 8 p with
        | some d => d.take 2 ++ '/' :: ((d.drop 2).take 2 ++ '/' :: d.drop 4)
        | none => go ps

/-- The character-level NUL replacement `line.replace("\x00", " ")`. -/
def nulToSpace (c : Char) : Char := if c = '\x00' then ' ' else c

/-- The field-level stage of the `process_florida` loop: reject fewer than
eight fields or an unparsed entity id, then assemble the ten-column row. -/
def flParseParts (parts : List (List Char)) : Option FlRow :=
  if parts.length < 8 then none
  else if (parse_entity_and_name (parts.getD 0 [])).1.isEmpty then none
  else
    some ⟨(parse_entity_and_name (parts.getD 0 [])).1,
          (parse_entity_and_name (parts.getD 0 [])).2,
          extract_filing_date parts,
          (extract_principal parts).1,
          (extract_principal parts).2.1,
          (extract_principal parts).2.2,
          (extract_mailing parts).1,
          (extract_mailing parts).2.1,
          (extract_mailing parts).2.2.1,
          (extract_mailing parts).2.2.2⟩

/-- The line-level stage of the `process_florida` loop: skip blank lines
and lines not starting with the entity-id pattern, then split into fields. -/
def flParseClean (line : List Char) : Option FlRow :=
  if (pyStrip line).isEmpty then none
  else if !startsWithEntityId line then none
  else flParseParts (split_parts line)

/-- The per-line body of the `process_florida` loop: replace NUL bytes with
spaces, strip trailing line-ending characters, then parse; `none` when the
line is skipped. -/
def flParseLine (raw : List Char) : Option FlRow :=
  flParseClean (pyRStripSet ['\n', '\r'] (raw.map nulToSpace))

/-- The rows parsed from the decoded file content, in input order
(`errors="ignore"` decoding, then `splitlines`, then the per-line parse). -/
def flRows (fileBytes : List Nat) : List FlRow :=
  (pySplitlines (utf8DecodeWith [] fileBytes)).filterMap flParseLine

/-- The exact-date filter of `process_florida`: when the filter string is
non-empty and parses under `%m/%d/%Y`, keep only rows whose filing date
parses to the same date; a non-parsing filter is silently ignored. -/
def flFilterDate (exactDate : List Char) (rows : List FlRow) : List FlRow :=
  if exactDate.isEmpty then rows
  else
    match parse_mmddyyyy exactDate with
    | some d => rows.filter (fun r => parse_mmddyyyy r.filingDate = some d)
    | none => rows

def flAllNonBlank (r : FlRow) : Bool :=
  nonBlank r.entityId && nonBlank r.businessName && nonBlank r.filingDate &&
  nonBlank r.pStreet && nonBlank r.pCity && nonBlank r.pZip &&
  nonBlank r.mStreet && nonBlank r.mCity && nonBlank r.mState && nonBlank r.mZip

/-- The mailing-only projection of a Florida row onto the Standard Record. -/
def flToMailing (r : FlRow) : StdRecord :=
  ⟨r.businessName, r.mStreet, r.mCity, r.mState, r.mZip, r.filingDate, r.entityId⟩

/-- `process_florida(file_bytes, exact_date_str, mailing_only=True)`:
Standard Records, rows with any all-whitespace field dropped. -/
def process_florida_mailing (fileBytes : List Nat) (exactDate : List Char) :
    List StdRecord :=
  ((flFilterDate exactDate (flRows fileBytes)).map flToMailing).filter stdAllNonBlank

/-- `process_florida(file_bytes, exact_date_str, mailing_only=False)`: the
ten-column principal+mailing rows, rows with any all-whitespace field
dropped. -/
def process_florida_full (fileBytes : List Nat) (exactDate : List Char) : List FlRow :=
  (flFilterDate exactDate (flRows fileBytes)).filter flAllNonBlank

/-- ASCII text as a byte string. -/
def asciiBytes (s : String) : List Nat := s.data.map Char.toNat

/-- Decidable equality for `Except` results (needed to evaluate the
transformers on concrete tables). -/
instance {e a : Type} [DecidableEq e] [DecidableEq a] : DecidableEq (Except e a)
  | .error x, .error y =>
      if h : x = y then .isTrue (by rw [h]) else .isFalse (by
        intro hc; cases hc; exact h rfl)
  | .error _, .ok _ => .isFalse (by intro hc; cases hc)
  | .ok _, .error _ => .isFalse (by intro hc; cases hc)
  | .ok x, .ok y =>
      if h : x = y then .isTrue (by rw [h]) else .isFalse (by
        intro hc; cases hc; exact h rfl)

/-! ## Tabular input (a `pd.read_csv` / `pd.read_excel` result)

A table is its column names plus rows of cells aligned with the columns; a
cell is `none` for pandas `NaN` (an empty CSV field) and `some s` for the
string `s`. -/

structure Table where
  cols : List (List Char)
  rows : List (List (Option (List Char)))
deriving DecidableEq, Repr

/-- `row[col]`: the cell of the first column named `name` (`none` when the
column is absent or the cell is `NaN`). -/
def getCell (cols : List (List Char)) (row : List (Option (List Char)))
    (name : List Char) : Option (List Char) :=
  match cols.findIdx? (fun c => c = name) with
  | some i => row.getD i none
  | none => none

/-- `series.astype(str)` on one cell: pandas renders `NaN` as the literal
string `"nan"`. -/
def cellToStr (c : Option (List Char)) : List Char :=
  match c with
  | some s => s
  | none => "nan".data

/-- `series.fillna("")` on one cell. -/
def cellOrEmpty (c : Option (List Char)) : List Char :=
  match c with
  | some s => s
  | none => []

/-- The first of `names` not present in `cols` — the column whose access
raises the first `KeyError`. -/
def firstMissing (cols : List (List Char)) (names : List (List Char)) :
    Option (List Char) :=
  names.find? (fun n => !cols.contains n)

/-! ## Washington backend (`process_washington_streamlit`) -/

/-- The four pieces returned by `split_address`. -/
structure AddrParts where
  street : List Char
  city : List Char
  state : List Char
  zipc : List Char
deriving DecidableEq, Repr

/-- The trimmed, non-blank comma-separated segments of an address string
(`[p.strip() for p in addr_str.split(",") if p.strip()]`). -/
def commaSegments (a : List Char) : List (List Char) :=
  ((splitOnCh ',' (pyStrip a)).map pyStrip).filter (fun p => !p.isEmpty)

/-- `split_address` of `process_washington_streamlit`: `NaN` gives four
empty strings; otherwise segment 0 is the street, 1 the city, 2 the state
(verbatim), and the ZIP is the first 5-digit run of segment 3. -/
def split_address (addr : Option (List Char)) : AddrParts :=
  match addr with
  | none => ⟨[], [], [], []⟩
  | some a =>
      let parts := commaSegments a
      ⟨parts.getD 0 [], parts.getD 1 [], parts.getD 2 [],
       (findDigitRun 5 (parts.getD 3 [])).getD []⟩

/-- The row filter of the Washington transformer: `Status == "Active"`,
`Principal Office Address` present, and `Business Type` (trimmed,
upper-cased) equal to `"WA LIMITED LIABILITY COMPANY"`. -/
def waMask (cols : List (List Char)) (row : List (Option (List Char))) : Bool :=
  (getCell cols row "Status".data = some "Active".data) &&
  (getCell cols row "Principal Office Address".data).isSome &&
  (match getCell cols row "Business Type".data with
   | some s => pyUpper (pyStrip s) = "WA LIMITED LIABILITY COMPANY".data
   | none => false)

/-- The Standard Record assembled from one kept Washington row (before the
blank-field drop): the split address pieces, the `Business Name` and `UBI#`
columns rendered with `astype(str)` and trimmed, and the uniform
`added_date` stamp. -/
def waBuildRec (cols : List (List Char)) (added : List Char)
    (row : List (Option (List Char))) : StdRecord :=
  let ap := split_address (getCell cols row "Principal Office Address".data)
  ⟨pyStrip (cellToStr (getCell cols row "Business Name".data)),
   pyStrip ap.street, pyStrip ap.city, pyStrip ap.state, pyStrip ap.zipc,
   pyStrip added,
   pyStrip (cellToStr (getCell cols row "UBI#".data))⟩

/-- One output row of the Washington transformer (`none` when the whole row
is dropped by the final blank-field rule). -/
def waRowOut (cols : List (List Char)) (added : List Char)
    (row : List (Option (List Char))) : Option StdRecord :=
  if stdAllNonBlank (waBuildRec cols added row) then some (waBuildRec cols added row)
  else none

/-- `process_washington_streamlit(file, added_date)`.  Column accesses
raise `KeyError` in source order (`Status`, `Principal Office Address`,
`Business Type` in the mask, then `Business Name`, then — when no row
passes the mask — `Address`, because `Series.apply` over the empty
selection yields a `Series`, the renamed address columns are never created,
and `filtered["Address"]` fails; finally `UBI#`). -/
def process_washington (t : Table) (added : List Char) :
    Except (List Char) (List StdRecord) :=
  let cols := t.cols.map pyStrip
  match firstMissing cols ["Status".data, "Principal Office Address".data,
      "Business Type".data, "Business Name".data] with
  | some c => .error c
  | none =>
      let kept := t.rows.filter (waMask cols)
      if kept.isEmpty then .error "Address".data
      else if !cols.contains "UBI#".data then .error "UBI#".data
      else .ok (kept.filterMap (waRowOut cols added))

/-- Washington required input columns (for stating when no `KeyError` is
raised). -/
def waRequiredCols : List (List Char) :=
  ["Status".data, "Principal Office Address".data, "Business Type".data,
   "Business Name".data, "UBI#".data]

/-! ## West Virginia backend (`process_wv_streamlit`) -/

/-- The row filter of the WV transformer: the five address/name columns
present and `Termination Date` absent. -/
def wvMask (cols : List (List Char)) (row : List (Option (List Char))) : Bool :=
  (getCell cols row "Organization Name".data).isSome &&
  (getCell cols row "Street1".data).isSome &&
  (getCell cols row "City".data).isSome &&
  (getCell cols row "StateProvince".data).isSome &&
  (getCell cols row "ZipCode".data).isSome &&
  (getCell cols row "Termination Date".data).isNone

/-- The reformatted filing date of one WV row: `pd.to_datetime(...,
errors="coerce").dt.strftime("%m/%d/%Y")` yields `NaN` for an unparseable
(or absent) `Effective Date`, which `astype(str)` then renders as the
string `"nan"`. -/
def wvFilingVal (cols : List (List Char)) (row : List (Option (List Char))) :
    List Char :=
  match getCell cols row "Effective Date".data with
  | none => "nan".data
  | some s =>
      match pdFlexParseDate s with
      | some dt => strfDate dt
      | none => "nan".data

/-- The extracted 5-digit ZIP of one WV row: `str.extract(r"(\d{5})")` on
the `astype(str)` rendering; no match gives `NaN`, rendered `"nan"` by the
later `astype(str)`. -/
def wvZipVal (cols : List (List Char)) (row : List (Option (List Char))) :
    List Char :=
  match findDigitRun 5 (cellToStr (getCell cols row "ZipCode".data)) with
  | some z => z
  | none => "nan".data

/-- The combined address of one WV row: `Street1`, or `"Street1, Street2"`
when the trimmed `Street2` is non-empty. -/
def wvAddressVal (cols : List (List Char)) (row : List (Option (List Char))) :
    List Char :=
  let s1 := pyStrip (cellOrEmpty (getCell cols row "Street1".data))
  let s2 := pyStrip (cellOrEmpty (getCell cols row "Street2".data))
  if s2.isEmpty then s1 else s1 ++ ',' :: ' ' :: s2

/-- The Standard Record assembled from one kept WV row (before the
blank-field drop). -/
def wvBuildRec (cols : List (List Char)) (row : List (Option (List Char))) :
    StdRecord :=
  ⟨pyStrip (cellToStr (getCell cols row "Organization Name".data)),
   pyStrip (wvAddressVal cols row),
   pyStrip (cellToStr (getCell cols row "City".data)),
   pyStrip (cellToStr (getCell cols row "StateProvince".data)),
   pyStrip (wvZipVal cols row),
   pyStrip (wvFilingVal cols row),
   pyStrip (cellToStr (getCell cols row "Id".data))⟩

/-- One output row of the WV transformer (`none` when the row fails the
mask or is dropped by the final blank-field rule). -/
def wvRowOut (cols : List (List Char)) (row : List (Option (List Char))) :
    Option StdRecord :=
  if wvMask cols row then
    if stdAllNonBlank (wvBuildRec cols row) then some (wvBuildRec cols row) else none
  else none

/-- WV required input columns, in first-access order. -/
def wvRequiredCols : List (List Char) :=
  ["Effective Date".data, "Street1".data, "Street2".data, "ZipCode".data,
   "Organization Name".data, "City".data, "StateProvince".data,
   "Termination Date".data, "Id".data]

/-- `process_wv_streamlit(file)`. -/
def process_wv (t : Table) : Except (List Char) (List StdRecord) :=
  let cols := t.cols.map pyStrip
  match firstMissing cols wvRequiredCols with
  | some c => .error c
  | none => .ok (t.rows.filterMap (wvRowOut cols))

/-! ## Combiner (`combiner_page`) -/

/-- The seven required Standard Record columns checked by the Combiner. -/
def requiredCols : List (List Char) :=
  ["Name".data, "Address".data, "City".data, "State".data, "Zipcode".data,
   "Filing Date".data, "Document Number".data]

def hasAllRequired (t : Table) : Bool :=
  requiredCols.all (fun c => t.cols.contains c)

/-- An uploaded file of the Combiner: its name, its tabular content, and
the per-file row-selection string entered for it. -/
structure UploadFile where
  fname : List Char
  table : Table
  choice : String
deriving DecidableEq

/-- The names of the files that passed the schema check (`valid_files`). -/
def validNames (files : List UploadFile) : List (List Char) :=
  (files.filter (fun f => hasAllRequired f.table)).map (fun f => f.fname)

/-- `selections.get(name, "ALL")`: the selection entered for the last valid
file with this name, defaulting to `"ALL"`. -/
def selectionFor (files : List UploadFile) (name : List Char) : String :=
  (files.filter (fun f => hasAllRequired f.table && f.fname = name)).foldl
    (fun _ f => f.choice) "ALL"

/-- The Combiner after the button press: files whose *name* is among the
valid names are sliced by their selection and concatenated (each combined
row carries its table's column list, standing for `pd.concat`'s
column-aligned row); with no frames at all the distinct
"No valid data to combine" failure is signalled. -/
def combine_files (files : List UploadFile) :
    Except (List Char) (List (List (List Char) × List (Option (List Char)))) :=
  if (files.filter (fun f => (validNames files).contains f.fname)).isEmpty then
    .error "No valid data to combine".data
  else
    .ok ((files.filter (fun f => (validNames files).contains f.fname)).flatMap
      (fun f =>
        (select_rows f.table.rows (selectionFor files f.fname)).map
          (fun r => (f.table.cols, r))))

/-! ## Specification-side definitions

These definitions follow the specification's words (not the source); they
exist to be compared with the source-derived definitions above. -/

/-- The first pair of two consecutive ASCII uppercase letters in `s`. -/
def findTwoUpper : List Char → Option (List Char)
  | [] => none
  | c :: cs =>
      match cs with
      | [] => none
      | c2 :: _ =>
          if c.isUpper && c2.isUpper then some [c, c2]
          else findTwoUpper cs

/-- `split_address` as the specification describes it: "street (segment 0),
city (segment 1), state (segment 2, extract 2 uppercase letters), ZIP
(extract first 5-digit run across segments 2–3 combined)". -/
def split_address_specModel (addr : Option (List Char)) : AddrParts :=
  match addr with
  | none => ⟨[], [], [], []⟩
  | some a =>
      let parts := commaSegments a
      ⟨parts.getD 0 [], parts.getD 1 [],
       (findTwoUpper (parts.getD 2 [])).getD [],
       (findDigitRun 5 (parts.getD 2 [] ++ parts.getD 3 [])).getD []⟩

/-- The Florida pipeline under the specification's reading of lenient
decoding, in which an ill-formed byte sequence is *replaced* (by U+FFFD)
rather than dropped; only the decoder differs from
`process_florida_full`. -/
def process_florida_full_replaceModel (fileBytes : List Nat) (exactDate : List Char) :
    List FlRow :=
  (flFilterDate exactDate
    ((pySplitlines (utf8DecodeWith ['�'] fileBytes)).filterMap flParseLine)).filter
    flAllNonBlank

/-- The Row Selector grammar as the specification states it: `ALL` or the
empty string, `first N` / `last N` with `N` a non-negative integer, or
`A-B` with both bounds parsing as integers (case-insensitive, surrounding
whitespace trimmed). -/
def selGrammarSpec (cs : List Char) : Bool :=
  let c := pyLower (pyStrip cs)
  cs.isEmpty || c = "all".data ||
  (match pySplitWs c with
   | [t, n] =>
       (t = "first".data || t = "last".data) &&
       (match pyInt n with | some k => (0 : Int) ≤ k | none => false)
   | _ => false) ||
  (match splitOnCh '-' c with
   | [a, b] => (pyInt a).isSome && (pyInt b).isSome
   | _ => false)

/-- The set of selection expressions on which `select_rows` takes one of
its non-trivial branches — the code's grammar: everything else falls back
to returning the rows unchanged. -/
def selGrammarExt (cs : List Char) : Bool :=
  cs.isEmpty ||
  (let c := pyLower (pyStrip cs)
   c = "all".data ||
   (listPfx "first".data c && (match pySplitWs c with
      | _ :: tok :: _ => (pyInt tok).isSome
      | _ => false)) ||
   (listPfx "last".data c && (match pySplitWs c with
      | _ :: tok :: _ => (pyInt tok).isSome
      | _ => false)) ||
   ('-' ∈ c && (match splitOnCh '-' c with
      | [a, b] => (pyInt a).isSome && (pyInt b).isSome
      | _ => false)))

/-! ## Concrete instances used by the claims -/

/-- The specification's Florida test line (eight fields — the runs of three
spaces separate them). -/
def flClaimLine : String :=
  "A12345678901SomeCo   123 Main St   Tampa,   33601   456 Oak Ave   Miami,   FL 33101   extra 08152024"

/-- The same line with one more field (`X`) after the name field, so that
the principal block occupies fields 2–4 and the date field reaches index 8,
as the parser's positional extraction expects. -/
def flAmendedLine : String :=
  "A12345678901SomeCo   X   123 Main St   Tampa,   33601   456 Oak Ave   Miami,   FL 33101   extra 08152024"

/-- The ten-column row the Florida parser produces from `flAmendedLine`. -/
def flAmendedRow : FlRow :=
  ⟨"A12345678901".data, "SomeCo".data, "08/15/2024".data, "123 Main St".data,
   "Tampa".data, "33601".data, "456 Oak Ave".data, "Miami".data, "FL".data,
   "33101".data⟩

/-- The Standard Record (mailing-only mode) from `flAmendedLine`. -/
def flAmendedStd : StdRecord :=
  ⟨"SomeCo".data, "456 Oak Ave".data, "Miami".data, "FL".data, "33101".data,
   "08/15/2024".data, "A12345678901".data⟩

/-- `flAmendedLine` as bytes with the invalid byte `0xFF` embedded inside
the eleven digits of the entity identifier. -/
def flFFBytes : List Nat :=
  asciiBytes "A123456" ++ 0xFF :: asciiBytes
    "78901SomeCo   X   123 Main St   Tampa,   33601   456 Oak Ave   Miami,   FL 33101   extra 08152024"

/-- The WV input columns. -/
def wvTestCols : List (List Char) :=
  ["Effective Date".data, "Street1".data, "Street2".data, "ZipCode".data,
   "Organization Name".data, "City".data, "StateProvince".data,
   "Termination Date".data, "Id".data]

/-- A WV row whose `ZipCode` (`"ABC12"`) contains no 5-digit run but is not
`NaN`; its Effective Date parses. -/
def wvZipBugRow : List (Option (List Char)) :=
  [some "01/02/2024".data, some "1 Main St".data, none, some "ABC12".data,
   some "Acme LLC".data, some "Charleston".data, some "WV".data, none,
   some "123".data]

def wvZipBugTable : Table := ⟨wvTestCols, [wvZipBugRow]⟩

/-- A WV row whose `Effective Date` (`"bogus"`) does not parse as a date;
everything else is present and clean. -/
def wvDateBugRow : List (Option (List Char)) :=
  [some "bogus".data, some "1 Main St".data, none, some "25301".data,
   some "Acme LLC".data, some "Charleston".data, some "WV".data, none,
   some "123".data]

def wvDateBugTable : Table := ⟨wvTestCols, [wvDateBugRow]⟩

/-- A fully clean WV row. -/
def wvGoodRow : List (Option (List Char)) :=
  [some "01/02/2024".data, some "1 Main St".data, none, some "25301".data,
   some "Acme LLC".data, some "Charleston".data, some "WV".data, none,
   some "123".data]

def wvGoodTable : Table := ⟨wvTestCols, [wvGoodRow]⟩

/-- The Standard Record the WV transformer produces from `wvGoodRow`. -/
def wvGoodStd : StdRecord :=
  ⟨"Acme LLC".data, "1 Main St".data, "Charleston".data, "WV".data,
   "25301".data, "01/02/2024".data, "123".data⟩

/-- The WA input columns. -/
def waTestCols : List (List Char) :=
  ["Business Name".data, "Status".data, "Principal Office Address".data,
   "Business Type".data, "UBI#".data]

/-- A clean active WA LLC row. -/
def waGoodRow : List (Option (List Char)) :=
  [some "Foo LLC".data, some "Active".data,
   some "1 Pine St, Seattle, WA, 98101-0001".data,
   some "WA LIMITED LIABILITY COMPANY".data, some "603123456".data]

def waGoodTable : Table := ⟨waTestCols, [waGoodRow]⟩

/-- The Standard Record the WA transformer produces from `waGoodRow` with
the stamp `08/15/2025`. -/
def waGoodStd : StdRecord :=
  ⟨"Foo LLC".data, "1 Pine St".data, "Seattle".data, "WA".data,
   "98101".data, "08/15/2025".data, "603123456".data⟩

/-- A WA table without the `Status` column. -/
def waNoStatusTable : Table :=
  ⟨["Business Name".data, "Principal Office Address".data,
    "Business Type".data, "UBI#".data],
   [[some "Foo LLC".data, some "1 Pine St, Seattle, WA, 98101".data,
     some "WA LIMITED LIABILITY COMPANY".data, some "603123456".data]]⟩

/-- A Combiner upload with only a `Name` column (six required columns
missing). -/
def cmbInvalidTable : Table := ⟨["Name".data], [[some "bad row".data]]⟩

/-- A complete seven-column Combiner upload with one row. -/
def cmbValidTable : Table :=
  ⟨requiredCols,
   [[some "n".data, some "a".data, some "c".data, some "s".data,
     some "z".data, some "f".data, some "d".data]]⟩

/-- Two uploads sharing the file name `a.xlsx`: the first lacks six of the
required columns, the second is complete. -/
def cmbDupFiles : List UploadFile :=
  [⟨"a.xlsx".data, cmbInvalidTable, "ALL"⟩,
   ⟨"a.xlsx".data, cmbValidTable, "ALL"⟩]

/-- The same two uploads under distinct names. -/
def cmbDistinctFiles : List UploadFile :=
  [⟨"a.xlsx".data, cmbInvalidTable, "ALL"⟩,
   ⟨"b.xlsx".data, cmbValidTable, "ALL"⟩]

/-! ## Decimal rendering used to state the grammar claims -/

/-- Decimal rendering of a natural number (most significant digit first). -/
def digitsOf (n : Nat) : List Char :=
  if n < 10 then [Nat.digitChar n] else digitsOf (n / 10) ++ [Nat.digitChar (n % 10)]
termination_by n
decreasing_by exact Nat.div_lt_self (by omega) (by omega)

/-- The accumulating step matching `pyIntDigits`. -/
def digitStep (a : Nat) (c : Char) : Nat := a * 10 + (c.toNat - 48)

/-! ## Helper lemmas: characters and digit strings -/

theorem isDigit_toNat {c : Char} (h : c.isDigit = true) :
    48 ≤ c.toNat ∧ c.toNat ≤ 57 := by
  simp only [Char.isDigit, Bool.and_eq_true, decide_eq_true_eq] at h
  exact ⟨by exact_mod_cast h.1, by exact_mod_cast h.2⟩

theorem ne_of_isDigit {c x : Char} (h : c.isDigit = true)
    (hx : x.isDigit = false) : c ≠ x := by
  intro he
  subst he
  rw [h] at hx
  cases hx

theorem isPyWsCh_of_isDigit {c : Char} (h : c.isDigit = true) :
    isPyWsCh c = false := by
  simp only [isPyWsCh, Bool.or_eq_false_iff, decide_eq_false_iff_not]
  exact ⟨⟨⟨⟨⟨ne_of_isDigit h (by decide), ne_of_isDigit h (by decide)⟩,
    ne_of_isDigit h (by decide)⟩, ne_of_isDigit h (by decide)⟩,
    ne_of_isDigit h (by decide)⟩, ne_of_isDigit h (by decide)⟩

theorem toLower_of_isDigit {c : Char} (h : c.isDigit = true) :
    c.toLower = c := by
  have hv := isDigit_toNat h
  simp only [Char.toLower]
  rw [if_neg]
  omega

theorem digitChar_isDigit {k : Nat} (h : k < 10) :
    (Nat.digitChar k).isDigit = true := by
  interval_cases k <;> decide

theorem digitChar_toNat {k : Nat} (h : k < 10) :
    (Nat.digitChar k).toNat = 48 + k := by
  interval_cases k <;> decide

theorem digitsOf_ne_nil (n : Nat) : digitsOf n ≠ [] := by
  rw [digitsOf]
  split
  · simp
  · simp

theorem digitsOf_all_digit (n : Nat) :
    (digitsOf n).all Char.isDigit = true := by
  induction n using Nat.strong_induction_on with
  | _ n ih =>
    rw [digitsOf]
    split
    · rename_i h
      simp [digitChar_isDigit h]
    · rename_i h
      rw [List.all_append]
      refine Bool.and_eq_true_iff.mpr ⟨ih (n / 10) (Nat.div_lt_self (by omega) (by omega)), ?_⟩
      simp [digitChar_isDigit (Nat.mod_lt _ (by omega))]

theorem foldl_digitsOf (n : Nat) : (digitsOf n).foldl digitStep 0 = n := by
  induction n using Nat.strong_induction_on with
  | _ n ih =>
    rw [digitsOf]
    split
    · rename_i h
      simp [digitStep, digitChar_toNat h]
    · rename_i h
      rw [List.foldl_append, ih (n / 10) (Nat.div_lt_self (by omega) (by omega))]
      simp only [List.foldl_cons, List.foldl_nil, digitStep]
      rw [digitChar_toNat (Nat.mod_lt _ (by omega))]
      omega

theorem pyIntDigits_of_digits :
    ∀ (ds : List Char), ds ≠ [] → ds.all Char.isDigit = true →
      ∀ (acc : Nat) (pu : Bool), pyIntDigits acc pu ds = some (ds.foldl digitStep acc)
  | [], h, _, _, _ => absurd rfl h
  | c :: cs, _, hall, acc, pu => by
    rw [List.all_cons, Bool.and_eq_true_iff] at hall
    rw [pyIntDigits]
    rw [if_neg (ne_of_isDigit hall.1 (by decide)), if_pos hall.1]
    cases cs with
    | nil => simp [pyIntDigits, digitStep]
    | cons d ds =>
      rw [pyIntDigits_of_digits (d :: ds) (by simp) hall.2]
      simp [digitStep]

/-! ## Helper lemmas: stripping, splitting, parsing -/

theorem dropWhile_cons_neg {p : α → Bool} {c : α} {l : List α} (h : p c = false) :
    (c :: l).dropWhile p = c :: l := by
  simp [List.dropWhile, h]

theorem nonWs_all_of_digits {ds : List Char} (h : ds.all Char.isDigit = true) :
    ds.all (fun c => !isPyWsCh c) = true := by
  rw [List.all_eq_true] at h ⊢
  intro c hc
  simp [isPyWsCh_of_isDigit (h c hc)]

theorem pyLStrip_eq_self {cs : List Char}
    (h : ∀ a, cs.head? = some a → isPyWsCh a = false) : pyLStrip cs = cs := by
  cases cs with
  | nil => rfl
  | cons c t => exact dropWhile_cons_neg (h c rfl)

theorem pyRStrip_eq_self {cs : List Char}
    (h : ∀ a, cs.getLast? = some a → isPyWsCh a = false) : pyRStrip cs = cs := by
  unfold pyRStrip
  cases hr : cs.reverse with
  | nil => simp [List.reverse_eq_nil_iff.mp hr]
  | cons c t =>
    rw [dropWhile_cons_neg, ← hr, List.reverse_reverse]
    apply h
    rw [← List.head?_reverse, hr]
    rfl

theorem pyStrip_eq_self {cs : List Char}
    (h1 : ∀ a, cs.head? = some a → isPyWsCh a = false)
    (h2 : ∀ a, cs.getLast? = some a → isPyWsCh a = false) : pyStrip cs = cs := by
  unfold pyStrip
  rw [pyLStrip_eq_self h1, pyRStrip_eq_self h2]

theorem pyStrip_of_all_nonWs {cs : List Char}
    (h : cs.all (fun c => !isPyWsCh c) = true) : pyStrip cs = cs := by
  rw [List.all_eq_true] at h
  apply pyStrip_eq_self
  · intro a ha
    have := h a (by cases cs with
      | nil => cases ha
      | cons c t => cases ha; exact List.mem_cons_self _ _)
    simpa using this
  · intro a ha
    have := h a (List.mem_of_mem_getLast? ha)
    simpa using this

theorem takeWhile_app {p : α → Bool} {xs : List α} (ys : List α)
    (h : ∀ a ∈ xs, p a = true) :
    (xs ++ ys).takeWhile p = xs ++ ys.takeWhile p := by
  induction xs with
  | nil => rfl
  | cons c t ih =>
    simp [List.takeWhile_cons, h c (List.mem_cons_self _ _),
      ih (fun a ha => h a (List.mem_cons_of_mem _ ha))]

theorem dropWhile_app {p : α → Bool} {xs : List α} (ys : List α)
    (h : ∀ a ∈ xs, p a = true) :
    (xs ++ ys).dropWhile p = ys.dropWhile p := by
  induction xs with
  | nil => rfl
  | cons c t ih =>
    simp only [List.cons_append, List.dropWhile_cons, h c (List.mem_cons_self _ _)]
    simp only [if_true]
    exact ih (fun a ha => h a (List.mem_cons_of_mem _ ha))

theorem pySplitWs_single {t : List Char} (hne : t ≠ [])
    (h : t.all (fun c => !isPyWsCh c) = true) : pySplitWs t = [t] := by
  cases t with
  | nil => exact absurd rfl hne
  | cons c cs =>
    rw [List.all_cons, Bool.and_eq_true_iff] at h
    rw [pySplitWs]
    rw [if_neg (by simpa using h.1)]
    have h2 : ∀ a ∈ cs, (fun x => !isPyWsCh x) a = true := List.all_eq_true.mp h.2
    rw [List.takeWhile_eq_self_iff.mpr h2, List.dropWhile_eq_nil_iff.mpr (by
      intro x hx; exact h2 x hx)]
    simp [pySplitWs]

theorem pySplitWs_pair {t1 t2 : List Char} (h1 : t1 ≠ [])
    (ha1 : t1.all (fun c => !isPyWsCh c) = true) (h2 : t2 ≠ [])
    (ha2 : t2.all (fun c => !isPyWsCh c) = true) :
    pySplitWs (t1 ++ ' ' :: t2) = [t1, t2] := by
  cases t1 with
  | nil => exact absurd rfl h1
  | cons c cs =>
    rw [List.all_cons, Bool.and_eq_true_iff] at ha1
    rw [List.cons_append, pySplitWs]
    rw [if_neg (by simpa using ha1.1)]
    have hcs : ∀ a ∈ cs, (fun x => !isPyWsCh x) a = true := List.all_eq_true.mp ha1.2
    rw [takeWhile_app _ hcs, dropWhile_app _ hcs]
    simp only [List.takeWhile_cons]
    rw [if_neg (by simp [isPyWsCh])]
    simp only [List.append_nil]
    rw [List.dropWhile_cons]
    rw [if_neg (by simp [isPyWsCh])]
    have hws : pySplitWs (' ' :: t2) = pySplitWs t2 := by
      rw [pySplitWs]
      rw [if_pos (by simp [isPyWsCh])]
    rw [hws, pySplitWs_single h2 ha2]

theorem splitOnCh_of_not_mem {sep : Char} {l : List Char} (h : sep ∉ l) :
    splitOnCh sep l = [l] := by
  induction l with
  | nil => rfl
  | cons c cs ih =>
    rw [splitOnCh]
    rw [if_neg (by rintro rfl; exact h (List.mem_cons_self _ _))]
    rw [ih (fun hm => h (List.mem_cons_of_mem _ hm))]

theorem splitOnCh_pair {a b : List Char} {sep : Char} (ha : sep ∉ a) (hb : sep ∉ b) :
    splitOnCh sep (a ++ sep :: b) = [a, b] := by
  induction a with
  | nil =>
    rw [List.nil_append, splitOnCh, if_pos rfl, splitOnCh_of_not_mem hb]
  | cons c cs ih =>
    rw [List.cons_append, splitOnCh]
    rw [if_neg (by rintro rfl; exact ha (List.mem_cons_self _ _))]
    rw [ih (fun hm => ha (List.mem_cons_of_mem _ hm))]

theorem not_mem_of_all_digit {ds : List Char} {x : Char}
    (h : ds.all Char.isDigit = true) (hx : x.isDigit = false) : x ∉ ds := by
  intro hm
  exact ne_of_isDigit (List.all_eq_true.mp h x hm) hx rfl

theorem pyLower_of_digits {ds : List Char} (h : ds.all Char.isDigit = true) :
    pyLower ds = ds := by
  induction ds with
  | nil => rfl
  | cons c cs ih =>
    rw [List.all_cons, Bool.and_eq_true_iff] at h
    simp only [pyLower, List.map_cons]
    rw [toLower_of_isDigit h.1]
    have := ih h.2
    simp only [pyLower] at this
    rw [this]

theorem pyStrip_of_digits {ds : List Char} (h : ds.all Char.isDigit = true) :
    pyStrip ds = ds :=
  pyStrip_of_all_nonWs (nonWs_all_of_digits h)

theorem pyIntDigits_none {ds : List Char} (h : ds.all Char.isDigit = true)
    (hne : ds ≠ []) (acc : Nat) (pu : Bool) :
    pyIntDigits acc pu ds = some (ds.foldl digitStep acc) :=
  pyIntDigits_of_digits ds hne h acc pu

theorem pyInt_of_digits {ds : List Char} (hne : ds ≠ [])
    (h : ds.all Char.isDigit = true) :
    pyInt ds = some ((ds.foldl digitStep 0 : Nat) : Int) := by
  have hstrip : pyStrip ds = ds := pyStrip_of_digits h
  cases ds with
  | nil => exact absurd rfl hne
  | cons c cs =>
    have hc : c.isDigit = true := by
      rw [List.all_cons, Bool.and_eq_true_iff] at h
      exact h.1
    simp only [pyInt, hstrip]
    rw [if_neg (ne_of_isDigit hc (by decide)), if_neg (ne_of_isDigit hc (by decide))]
    rw [pyIntDigits_none h hne 0 true]
    rfl

theorem pyInt_digitsOf (n : Nat) : pyInt (digitsOf n) = some (n : Int) := by
  rw [pyInt_of_digits (digitsOf_ne_nil n) (digitsOf_all_digit n), foldl_digitsOf]

theorem pyInt_neg_digitsOf (n : Nat) :
    pyInt ('-' :: digitsOf n) = some (-(n : Int)) := by
  have hall := digitsOf_all_digit n
  have hstrip : pyStrip ('-' :: digitsOf n) = '-' :: digitsOf n := by
    apply pyStrip_of_all_nonWs
    rw [List.all_cons, Bool.and_eq_true_iff]
    exact ⟨by decide, nonWs_all_of_digits hall⟩
  simp only [pyInt, hstrip, if_true]
  rw [pyIntDigits_none hall (digitsOf_ne_nil n) 0 true, foldl_digitsOf]
  rfl

unseal pySplitWs utf8DecodeWith flSplitRaw digitsOf

/-! ## Helper lemmas: computing `select_rows` on the grammar's expressions -/

theorem pyStrip_lit_digits (lit : List Char) (fd : List Char)
    (hlit : ∀ a, (lit ++ fd).head? = some a → isPyWsCh a = false)
    (hfd : fd ≠ []) (hdig : fd.all Char.isDigit = true) :
    pyStrip (lit ++ fd) = lit ++ fd := by
  apply pyStrip_eq_self hlit
  intro a ha
  rw [List.getLast?_append_of_ne_nil _ hfd] at ha
  exact isPyWsCh_of_isDigit
    (List.all_eq_true.mp hdig a (List.mem_of_mem_getLast? ha))

theorem select_first_digits (xs : List α) (n : Nat) :
    select_rows_core xs ("first ".data ++ digitsOf n) = pdHead (n : Int) xs := by
  have hfd := digitsOf_all_digit n
  have hne := digitsOf_ne_nil n
  have hstrip : pyStrip ("first ".data ++ digitsOf n) = "first ".data ++ digitsOf n := by
    apply pyStrip_lit_digits _ _ _ hne hfd
    intro a ha
    cases ha
    decide
  have hlow : pyLower ("first ".data ++ digitsOf n) = "first ".data ++ digitsOf n := by
    unfold pyLower
    rw [List.map_append]
    have h1 : ("first ".data).map Char.toLower = "first ".data := by decide
    have h2 := pyLower_of_digits hfd
    unfold pyLower at h2
    rw [h1, h2]
  unfold select_rows_core
  rw [if_neg (by simp)]
  simp only [hstrip, hlow]
  rw [if_neg (by
    intro hcontra
    have hlen := congrArg List.length hcontra
    simp at hlen)]
  rw [if_pos (by simp [listPfx])]
  have hsp : pySplitWs ("first ".data ++ digitsOf n) = ["first".data, digitsOf n] := by
    have : "first ".data ++ digitsOf n = "first".data ++ ' ' :: digitsOf n := rfl
    rw [this]
    exact pySplitWs_pair (by simp) (by decide) hne (nonWs_all_of_digits hfd)
  simp only [hsp, pyInt_digitsOf]

theorem select_first_tok (xs : List α) (tok : List Char) (hne : tok ≠ [])
    (hnw : tok.all (fun c => !isPyWsCh c) = true) (hlow : pyLower tok = tok) :
    select_rows_core xs ("first ".data ++ tok) =
      (match pyInt tok with | some n => pdHead n xs | none => xs) := by
  have hstrip : pyStrip ("first ".data ++ tok) = "first ".data ++ tok := by
    apply pyStrip_eq_self
    · intro a ha
      cases ha
      decide
    · intro a ha
      rw [List.getLast?_append_of_ne_nil _ hne] at ha
      have := List.all_eq_true.mp hnw a (List.mem_of_mem_getLast? ha)
      simpa using this
  have hlow2 : pyLower ("first ".data ++ tok) = "first ".data ++ tok := by
    unfold pyLower at hlow ⊢
    rw [List.map_append, hlow]
    have h1 : ("first ".data).map Char.toLower = "first ".data := by decide
    rw [h1]
  unfold select_rows_core
  rw [if_neg (by simp)]
  simp only [hstrip, hlow2]
  rw [if_neg (by
    intro hcontra
    have hlen := congrArg List.length hcontra
    simp at hlen)]
  rw [if_pos (by simp [listPfx])]
  have hsp : pySplitWs ("first ".data ++ tok) = ["first".data, tok] := by
    have hf : "first ".data ++ tok = "first".data ++ ' ' :: tok := by simp
    rw [hf]
    exact pySplitWs_pair (by simp) (by decide) hne hnw
  simp only [hsp]

theorem select_last_tok (xs : List α) (tok : List Char) (hne : tok ≠ [])
    (hnw : tok.all (fun c => !isPyWsCh c) = true) (hlow : pyLower tok = tok) :
    select_rows_core xs ("last ".data ++ tok) =
      (match pyInt tok with | some n => pdTail n xs | none => xs) := by
  have hstrip : pyStrip ("last ".data ++ tok) = "last ".data ++ tok := by
    apply pyStrip_eq_self
    · intro a ha
      cases ha
      decide
    · intro a ha
      rw [List.getLast?_append_of_ne_nil _ hne] at ha
      have := List.all_eq_true.mp hnw a (List.mem_of_mem_getLast? ha)
      simpa using this
  have hlow2 : pyLower ("last ".data ++ tok) = "last ".data ++ tok := by
    unfold pyLower at hlow ⊢
    rw [List.map_append, hlow]
    have h1 : ("last ".data).map Char.toLower = "last ".data := by decide
    rw [h1]
  unfold select_rows_core
  rw [if_neg (by simp)]
  simp only [hstrip, hlow2]
  rw [if_neg (by
    intro hcontra
    have hlen := congrArg List.length hcontra
    simp at hlen)]
  rw [if_neg (by simp [listPfx])]
  rw [if_pos (by simp [listPfx])]
  have hsp : pySplitWs ("last ".data ++ tok) = ["last".data, tok] := by
    have hf : "last ".data ++ tok = "last".data ++ ' ' :: tok := by simp
    rw [hf]
    exact pySplitWs_pair (by simp) (by decide) hne hnw
  simp only [hsp]

theorem digitsTok_nonWs (n : Nat) :
    (digitsOf n).all (fun c => !isPyWsCh c) = true :=
  nonWs_all_of_digits (digitsOf_all_digit n)

theorem negDigitsTok_nonWs (n : Nat) :
    (('-' :: digitsOf n).all (fun c => !isPyWsCh c)) = true := by
  rw [List.all_cons, Bool.and_eq_true_iff]
  exact ⟨by decide, digitsTok_nonWs n⟩

theorem negDigitsTok_lower (n : Nat) :
    pyLower ('-' :: digitsOf n) = '-' :: digitsOf n := by
  unfold pyLower
  rw [List.map_cons]
  have h2 := pyLower_of_digits (digitsOf_all_digit n)
  unfold pyLower at h2
  rw [h2]
  rfl

theorem select_first_digits_eq (xs : List α) (n : Nat) :
    select_rows_core xs ("first ".data ++ digitsOf n) = pdHead (n : Int) xs := by
  rw [select_first_tok xs (digitsOf n) (digitsOf_ne_nil n) (digitsTok_nonWs n)
    (pyLower_of_digits (digitsOf_all_digit n))]
  simp only [pyInt_digitsOf]

theorem select_first_neg_digits (xs : List α) (n : Nat) :
    select_rows_core xs ("first -".data ++ digitsOf n) = pdHead (-(n : Int)) xs := by
  have hform : "first -".data ++ digitsOf n = "first ".data ++ '-' :: digitsOf n := by
    simp
  rw [hform, select_first_tok xs ('-' :: digitsOf n) (by simp)
    (negDigitsTok_nonWs n) (negDigitsTok_lower n)]
  simp only [pyInt_neg_digitsOf]

theorem select_last_neg_digits (xs : List α) (n : Nat) :
    select_rows_core xs ("last -".data ++ digitsOf n) = pdTail (-(n : Int)) xs := by
  have hform : "last -".data ++ digitsOf n = "last ".data ++ '-' :: digitsOf n := by
    simp
  rw [hform, select_last_tok xs ('-' :: digitsOf n) (by simp)
    (negDigitsTok_nonWs n) (negDigitsTok_lower n)]
  simp only [pyInt_neg_digitsOf]

theorem select_range_digits (xs : List α) (a b : Nat) :
    select_rows_core xs (digitsOf a ++ '-' :: digitsOf b) =
      pdIloc ((a : Int) - 1) (b : Int) xs := by
  have hda := digitsOf_all_digit a
  have hdb := digitsOf_all_digit b
  have hall : (digitsOf a ++ '-' :: digitsOf b).all (fun c => !isPyWsCh c) = true := by
    rw [List.all_append, List.all_cons]
    rw [nonWs_all_of_digits hda, nonWs_all_of_digits hdb]
    decide
  have hstrip := pyStrip_of_all_nonWs hall
  have hlow : pyLower (digitsOf a ++ '-' :: digitsOf b) =
      digitsOf a ++ '-' :: digitsOf b := by
    unfold pyLower
    rw [List.map_append, List.map_cons]
    have h1 := pyLower_of_digits hda
    have h2 := pyLower_of_digits hdb
    unfold pyLower at h1 h2
    rw [h1, h2]
    rfl
  obtain ⟨c0, da, hda0⟩ : ∃ c0 da, digitsOf a = c0 :: da := by
    cases hd : digitsOf a with
    | nil => exact absurd hd (digitsOf_ne_nil a)
    | cons c0 da => exact ⟨c0, da, rfl⟩
  have hc0 : c0.isDigit = true := by
    have := digitsOf_all_digit a
    rw [hda0, List.all_cons, Bool.and_eq_true_iff] at this
    exact this.1
  unfold select_rows_core
  rw [if_neg (by simp [hda0])]
  simp only [hstrip, hlow]
  rw [if_neg (by
    rw [hda0]
    intro hcontra
    rw [List.cons_append, show (['a', 'l', 'l'] : List Char) = 'a' :: ['l', 'l'] from rfl,
      List.cons.injEq] at hcontra
    exact ne_of_isDigit hc0 (by decide) hcontra.1)]
  rw [if_neg (by
    rw [hda0, List.cons_append]
    simp only [listPfx, Bool.and_eq_true, beq_iff_eq]
    rintro ⟨hh, -⟩
    exact ne_of_isDigit hc0 (by decide) hh.symm)]
  rw [if_neg (by
    rw [hda0, List.cons_append]
    simp only [listPfx, Bool.and_eq_true, beq_iff_eq]
    rintro ⟨hh, -⟩
    exact ne_of_isDigit hc0 (by decide) hh.symm)]
  rw [if_pos (by
    rw [List.mem_append]
    right
    exact List.mem_cons_self _ _)]
  rw [splitOnCh_pair (not_mem_of_all_digit hda (by decide))
    (not_mem_of_all_digit hdb (by decide))]
  simp only [pyInt_digitsOf]

theorem select_fallback (xs : List α) {cs : List Char}
    (h : selGrammarExt cs = false) : select_rows_core xs cs = xs := by
  by_cases he : cs.isEmpty = true
  · unfold select_rows_core
    rw [if_pos he]
  · have he' : cs.isEmpty = false := by simpa using he
    unfold selGrammarExt at h
    rw [he'] at h
    simp only [Bool.false_or, Bool.or_eq_false_iff] at h
    obtain ⟨⟨⟨hA, hB⟩, hC⟩, hD⟩ := h
    have hA' : ¬(pyLower (pyStrip cs) = "all".data) := by
      simpa using hA
    by_cases hf : listPfx "first".data (pyLower (pyStrip cs)) = true
    · cases hsp : pySplitWs (pyLower (pyStrip cs)) with
      | nil => simp [select_rows_core, he', hA', hf, hsp]
      | cons t rest =>
        cases rest with
        | nil => simp [select_rows_core, he', hA', hf, hsp]
        | cons tok rest2 =>
          have hM : pyInt tok = none := by
            rw [Bool.and_eq_false_iff] at hB
            cases hB with
            | inl hff => rw [hf] at hff; cases hff
            | inr hm =>
              rw [hsp] at hm
              simpa using hm
          simp [select_rows_core, he', hA', hf, hsp, hM]
    · by_cases hl : listPfx "last".data (pyLower (pyStrip cs)) = true
      · cases hsp : pySplitWs (pyLower (pyStrip cs)) with
        | nil => simp [select_rows_core, he', hA', hf, hl, hsp]
        | cons t rest =>
          cases rest with
          | nil => simp [select_rows_core, he', hA', hf, hl, hsp]
          | cons tok rest2 =>
            have hM : pyInt tok = none := by
              rw [Bool.and_eq_false_iff] at hC
              cases hC with
              | inl hff => rw [hl] at hff; cases hff
              | inr hm =>
                rw [hsp] at hm
                simpa using hm
            simp [select_rows_core, he', hA', hf, hl, hsp, hM]
      · by_cases hdm : '-' ∈ pyLower (pyStrip cs)
        · cases hspl : splitOnCh '-' (pyLower (pyStrip cs)) with
          | nil => simp [select_rows_core, he', hA', hf, hl, hdm, hspl]
          | cons pa rest =>
            cases rest with
            | nil => simp [select_rows_core, he', hA', hf, hl, hdm, hspl]
            | cons pb rest2 =>
              cases rest2 with
              | cons pc rest3 =>
                simp [select_rows_core, he', hA', hf, hl, hdm, hspl]
              | nil =>
                have hM : pyInt pa = none ∨ pyInt pb = none := by
                  rw [Bool.and_eq_false_iff] at hD
                  cases hD with
                  | inl hff => simp [hdm] at hff
                  | inr hm =>
                    rw [hspl] at hm
                    simp only [Bool.and_eq_false_iff, Option.not_isSome,
                      Option.isNone_iff_eq_none] at hm
                    exact hm
                cases hM with
                | inl hpa =>
                  simp [select_rows_core, he', hA', hf, hl, hdm, hspl, hpa]
                | inr hpb =>
                  cases hva : pyInt pa with
                  | none => simp [select_rows_core, he', hA', hf, hl, hdm, hspl, hva]
                  | some va =>
                    simp [select_rows_core, he', hA', hf, hl, hdm, hspl, hva, hpb]
        · simp [select_rows_core, he', hA', hf, hl, hdm]

theorem pdHead_of_length_le {n : Nat} (xs : List α) (h : xs.length ≤ n) :
    pdHead (n : Int) xs = xs := by
  unfold pdHead
  rw [if_pos (by omega)]
  rw [Int.toNat_ofNat]
  exact List.take_of_length_le h

theorem pdHead_neg {n : Nat} (xs : List α) (h : 1 ≤ n) :
    pdHead (-(n : Int)) xs = xs.take (xs.length - n) := by
  unfold pdHead
  rw [if_neg (by omega)]
  norm_num

theorem pdTail_neg {n : Nat} (xs : List α) (h : 1 ≤ n) :
    pdTail (-(n : Int)) xs = xs.drop n := by
  unfold pdTail
  rw [if_neg (by omega)]
  norm_num

theorem pdIloc_empty {a b : Nat} (xs : List α)
    (h : min b xs.length < max a 1) : pdIloc ((a : Int) - 1) (b : Int) xs = [] := by
  simp only [pdIloc]
  have hb : ¬((b : Int) < 0) := by omega
  rw [if_neg hb]
  rcases Nat.eq_zero_or_pos a with ha | ha
  · subst ha
    rw [if_pos (by omega)]
    have he : min (b : Int).toNat xs.length = 0 := by
      simp only [Int.toNat_ofNat]
      omega
    rw [he]
    simp
  · rw [if_neg (by omega)]
    have hs : ((a : Int) - 1).toNat = a - 1 := by omega
    rw [hs]
    simp only [Int.toNat_ofNat]
    have : min (b : Nat) xs.length ≤ min (a - 1) xs.length := by omega
    rw [show min b xs.length - min (a-1) xs.length = 0 from by omega]
    simp

theorem pdIloc_range {a b : Nat} (xs : List α) (h1 : 1 ≤ a) (h2 : a ≤ b)
    (h3 : b ≤ xs.length) :
    pdIloc ((a : Int) - 1) (b : Int) xs = (xs.drop (a - 1)).take (b - (a - 1)) := by
  simp only [pdIloc]
  rw [if_neg (by omega), if_neg (by omega)]
  have hs : ((a : Int) - 1).toNat = a - 1 := by omega
  rw [hs]
  simp only [Int.toNat_ofNat]
  rw [min_eq_left (by omega), min_eq_left (by omega)]

/-! ## Helper lemmas: the regex scanners and field shapes -/

theorem findDigitRun_spec {k : Nat} :
    ∀ {l r : List Char}, findDigitRun k l = some r →
      r.length = k ∧ r.all Char.isDigit = true := by
  intro l
  induction l with
  | nil => intro r h; cases h
  | cons c cs ih =>
    intro r h
    rw [findDigitRun] at h
    split at h
    · rename_i hcond
      rw [Bool.and_eq_true_iff] at hcond
      cases h
      exact ⟨by simpa using hcond.1, hcond.2⟩
    · exact ih h

theorem findStateZip_spec :
    ∀ (l : List Char) {st z : List Char}, findStateZip l = some (st, z) →
      z.length = 5 ∧ z.all Char.isDigit = true
  | [], _, _, h => by cases h
  | [c], _, _, h => by rw [findStateZip] at h; cases h
  | c :: c2 :: cs2, st, z, h => by
      rw [findStateZip] at h
      split at h
      · split at h
        · rename_i hcond
          rw [Bool.and_eq_true_iff] at hcond
          cases h
          exact ⟨by simpa using hcond.1, hcond.2⟩
        · exact findStateZip_spec (c2 :: cs2) h
      · exact findStateZip_spec (c2 :: cs2) h

theorem dateShape_of_run {d : List Char} (hlen : d.length = 8)
    (hdig : d.all Char.isDigit = true) :
    dateShape (d.take 2 ++ '/' :: ((d.drop 2).take 2 ++ '/' :: d.drop 4)) = true := by
  match d, hlen with
  | [a, b, c, e, f, g, i, j], _ =>
    simp only [List.all_cons, Bool.and_eq_true_iff, List.all_nil] at hdig
    simp [dateShape, hdig]

theorem extract_filing_date_go_spec :
    ∀ ps : List (List Char), extract_filing_date.go ps = [] ∨
      dateShape (extract_filing_date.go ps) = true := by
  intro ps
  induction ps with
  | nil => exact Or.inl rfl
  | cons p rest ih =>
    rw [extract_filing_date.go]
    cases hf : findDigitRun 8 p with
    | none => exact ih
    | some d =>
      right
      obtain ⟨hlen, hdig⟩ := findDigitRun_spec hf
      exact dateShape_of_run hlen hdig

theorem extract_filing_date_spec (parts : List (List Char)) :
    extract_filing_date parts = [] ∨ dateShape (extract_filing_date parts) = true :=
  extract_filing_date_go_spec (parts.drop 8)

theorem zip5Shape_of_run {z : List Char} (hlen : z.length = 5)
    (hdig : z.all Char.isDigit = true) : zip5Shape z = true := by
  simp [zip5Shape, hlen, hdig]

theorem extract_mailing_zip (parts : List (List Char)) :
    (extract_mailing parts).2.2.2 = [] ∨
      zip5Shape (extract_mailing parts).2.2.2 = true := by
  unfold extract_mailing
  split
  · exact Or.inl rfl
  · cases hsz : findStateZip (pyStrip (parts.getD 7 [])) with
    | none => simp [hsz]
    | some p =>
      obtain ⟨st, z⟩ := p
      obtain ⟨hl, hd⟩ := findStateZip_spec _ hsz
      simp only [hsz]
      exact Or.inr (zip5Shape_of_run hl hd)

theorem flParseParts_shape {parts : List (List Char)} {row : FlRow}
    (h : flParseParts parts = some row) :
    (row.filingDate = [] ∨ dateShape row.filingDate = true) ∧
    (row.mZip = [] ∨ zip5Shape row.mZip = true) := by
  unfold flParseParts at h
  split at h
  · cases h
  · split at h
    · cases h
    · rw [Option.some.injEq] at h
      subst h
      exact ⟨extract_filing_date_spec parts, extract_mailing_zip parts⟩

theorem flParseLine_shape {raw : List Char} {row : FlRow}
    (h : flParseLine raw = some row) :
    (row.filingDate = [] ∨ dateShape row.filingDate = true) ∧
    (row.mZip = [] ∨ zip5Shape row.mZip = true) := by
  unfold flParseLine flParseClean at h
  split at h
  · cases h
  · split at h
    · cases h
    · exact flParseParts_shape h

theorem flRows_shape {bytes : List Nat} {row : FlRow} (h : row ∈ flRows bytes) :
    (row.filingDate = [] ∨ dateShape row.filingDate = true) ∧
    (row.mZip = [] ∨ zip5Shape row.mZip = true) := by
  unfold flRows at h
  rw [List.mem_filterMap] at h
  obtain ⟨l, -, hl⟩ := h
  exact flParseLine_shape hl

theorem flFilterDate_sub {exact : List Char} {rows : List FlRow} {r : FlRow}
    (h : r ∈ flFilterDate exact rows) : r ∈ rows := by
  unfold flFilterDate at h
  split at h
  · exact h
  · split at h
    · exact (List.mem_filter.mp h).1
    · exact h

theorem nonBlank_ne_nil {cs : List Char} (h : nonBlank cs = true) : cs ≠ [] := by
  intro he
  subst he
  cases h

/-! ## Claims -/

/-- C3 (counterexample): `select_rows(S, "3-1")` on a three-element
sequence — the start exceeds the end after clamping, but the result is the
empty sequence, not all of `S` as the claim states. -/
theorem select_rows_range_flip_counterexample :
    select_rows ([1, 2, 3] : List Nat) "3-1" = [] ∧
    ([] : List Nat) ≠ [1, 2, 3] := by
  constructor
  · decide
  · decide

/-- C3 (amended): for every sequence and every range expression `A-B`
whose start exceeds its end after clamping (start raised to at least 1, end
lowered to at most the length), `select_rows` returns the *empty*
sequence — Python slice semantics — not all of `S`. -/
theorem select_rows_range_flip_empty {α : Type} (xs : List α) (a b : Nat)
    (h : min b xs.length < max a 1) :
    select_rows xs (String.mk (digitsOf a ++ '-' :: digitsOf b)) = [] := by
  show select_rows_core xs (digitsOf a ++ '-' :: digitsOf b) = []
  rw [select_range_digits]
  exact pdIloc_empty xs h

/-- C3 (witness): the amended theorem applied to `S = [10]`, `A = 3`,
`B = 1`. -/
theorem select_rows_range_flip_empty_witness :
    min 1 ([10] : List Nat).length < max 3 1 ∧
    select_rows ([10] : List Nat) (String.mk (digitsOf 3 ++ '-' :: digitsOf 1)) = [] :=
  ⟨by decide, select_rows_range_flip_empty [10] 3 1 (by decide)⟩

/-- C4 (counterexample): `"last -1"` does not match the specification's
grammar (its `N` must be a non-negative integer), yet `select_rows` does
not return the sequence unchanged: pandas `tail(-1)` drops the first
element. -/
theorem select_rows_fallback_counterexample :
    selGrammarSpec "last -1".data = false ∧
    select_rows ([1, 2] : List Nat) "last -1" = [2] ∧
    ([2] : List Nat) ≠ [1, 2] := by
  refine ⟨by decide, by decide, by decide⟩

/-- C4 (amended): `select_rows(S, "ALL") = S`; `select_rows(S, "first 0")`
is empty; `first N` with `N ≥ len(S)` returns all of `S`; `A-B` with
`1 ≤ A ≤ B ≤ len(S)` returns exactly `S[A-1:B]`; `first N`/`last N` with
negative `N` return `S` minus its last/first `|N|` records (pandas
semantics — not `S` unchanged); every expression outside this extended
grammar returns `S` unchanged, and no expression errors. -/
theorem select_rows_grammar_spec {α : Type} (xs : List α) :
    (select_rows xs "ALL" = xs) ∧
    (select_rows xs "first 0" = []) ∧
    (∀ n : Nat, xs.length ≤ n →
      select_rows xs (String.mk ("first ".data ++ digitsOf n)) = xs) ∧
    (∀ a b : Nat, 1 ≤ a → a ≤ b → b ≤ xs.length →
      select_rows xs (String.mk (digitsOf a ++ '-' :: digitsOf b)) =
        (xs.drop (a - 1)).take (b - (a - 1))) ∧
    (∀ n : Nat, 1 ≤ n →
      select_rows xs (String.mk ("first -".data ++ digitsOf n)) =
        xs.take (xs.length - n)) ∧
    (∀ n : Nat, 1 ≤ n →
      select_rows xs (String.mk ("last -".data ++ digitsOf n)) = xs.drop n) ∧
    (∀ s : String, selGrammarExt s.data = false → select_rows xs s = xs) := by
  refine ⟨rfl, ?_, ?_, ?_, ?_, ?_, ?_⟩
  · show select_rows_core xs ("first ".data ++ digitsOf 0) = []
    rw [select_first_digits_eq]
    simp [pdHead]
  · intro n hn
    show select_rows_core xs ("first ".data ++ digitsOf n) = xs
    rw [select_first_digits_eq]
    exact pdHead_of_length_le xs hn
  · intro a b h1 h2 h3
    show select_rows_core xs (digitsOf a ++ '-' :: digitsOf b) = _
    rw [select_range_digits]
    exact pdIloc_range xs h1 h2 h3
  · intro n hn
    show select_rows_core xs ("first -".data ++ digitsOf n) = _
    rw [select_first_neg_digits]
    exact pdHead_neg xs hn
  · intro n hn
    show select_rows_core xs ("last -".data ++ digitsOf n) = _
    rw [select_last_neg_digits]
    exact pdTail_neg xs hn
  · intro s hs
    exact select_fallback xs hs

/-- C4 (witness): the amended grammar theorem applied at concrete inputs:
`"2-3"` on `[1,2,3,4]`, `"first 9"` on the same list, and the non-grammar
expression `"bogus"`. -/
theorem select_rows_grammar_spec_witness :
    (select_rows ([1, 2, 3, 4] : List Nat)
      (String.mk (digitsOf 2 ++ '-' :: digitsOf 3)) = [2, 3]) ∧
    (select_rows ([1, 2, 3, 4] : List Nat)
      (String.mk ("first ".data ++ digitsOf 9)) = [1, 2, 3, 4]) ∧
    (select_rows ([1, 2, 3, 4] : List Nat) "bogus" = [1, 2, 3, 4]) :=
  ⟨(select_rows_grammar_spec [1, 2, 3, 4]).2.2.2.1 2 3 (by decide) (by decide)
      (by decide),
   (select_rows_grammar_spec [1, 2, 3, 4]).2.2.1 9 (by decide),
   (select_rows_grammar_spec [1, 2, 3, 4]).2.2.2.2.2.2 "bogus" (by decide)⟩

/-- C10: the three transformers are deterministic — each is a pure function
of its inputs in this embedding (no randomness, no clock), so two runs on
the same raw input, date filter, mailing flag and added-date stamp are
equal. -/
theorem transformers_deterministic :
    (∀ (bytes : List Nat) (exact : List Char),
      process_florida_mailing bytes exact = process_florida_mailing bytes exact ∧
      process_florida_full bytes exact = process_florida_full bytes exact) ∧
    (∀ (t : Table) (added : List Char),
      process_washington t added = process_washington t added) ∧
    (∀ (t : Table), process_wv t = process_wv t) :=
  ⟨fun _ _ => ⟨rfl, rfl⟩, fun _ _ => rfl, fun _ => rfl⟩

/-- C2 (counterexample): on the specification's eight-field test line the
Florida parser emits no record at all — in both output modes the single
parsed row is dropped because the positional extraction (principal block at
fields 2–4, mailing at 5–7, date from field 8 onward) leaves the principal
ZIP, mailing state/ZIP and filing date empty — so no record with Entity ID
`A12345678901`, filing date `08/15/2024` and mailing ZIP `33101` exists. -/
theorem florida_claim_line_counterexample :
    process_florida_full (asciiBytes flClaimLine) [] = [] ∧
    process_florida_mailing (asciiBytes flClaimLine) [] = [] ∧
    ¬ ∃ r ∈ process_florida_full (asciiBytes flClaimLine) [],
        r.entityId = "A12345678901".data ∧ r.filingDate = "08/15/2024".data ∧
        r.mZip = "33101".data := by
  refine ⟨by decide, by decide, ?_⟩
  rintro ⟨r, hr, -⟩
  rw [show process_florida_full (asciiBytes flClaimLine) [] = [] from by decide] at hr
  cases hr

/-- C2 (amended): with one additional field between the name field and the
principal street (nine fields, so that the blocks sit where the parser's
positional extraction expects them), `process_florida` yields exactly one
record with Entity ID `A12345678901`, filing date `08/15/2024` and mailing
ZIP `33101`, in both output modes. -/
theorem florida_amended_line_record :
    process_florida_full (asciiBytes flAmendedLine) [] = [flAmendedRow] ∧
    process_florida_mailing (asciiBytes flAmendedLine) [] = [flAmendedStd] ∧
    flAmendedRow.entityId = "A12345678901".data ∧
    flAmendedRow.filingDate = "08/15/2024".data ∧
    flAmendedRow.mZip = "33101".data := by
  refine ⟨by decide, by decide, rfl, rfl, rfl⟩

/-- C5 (code evaluation): a West Virginia row whose Effective Date is the
unparseable string `"bogus"` is *not* dropped: `strftime` over `NaT` gives
`NaN`, `astype(str)` renders it as the non-empty string `"nan"`, which
survives the blank-field filter — the claim's "becomes empty, therefore
dropped" does not happen. -/
theorem wv_unparseable_date_kept :
    process_wv wvDateBugTable =
      .ok [⟨"Acme LLC".data, "1 Main St".data, "Charleston".data, "WV".data,
            "25301".data, "nan".data, "123".data⟩] ∧
    pdFlexParseDate "bogus".data = none ∧
    ("nan".data : List Char) ≠ [] := by
  refine ⟨by decide, by decide, by decide⟩

/-- C6 (counterexample): on the three-segment address
`"1 Main St, Town, WA 98101"` the code's `split_address` returns the whole
segment 2 (`"WA 98101"`) as the state — not two extracted uppercase
letters — and an empty ZIP, because it looks for the 5-digit run only in
segment 3, which does not exist; the specification's reading would give
state `"WA"` and ZIP `"98101"`. -/
theorem split_address_counterexample :
    split_address (some "1 Main St, Town, WA 98101".data) =
      ⟨"1 Main St".data, "Town".data, "WA 98101".data, []⟩ ∧
    split_address_specModel (some "1 Main St, Town, WA 98101".data) =
      ⟨"1 Main St".data, "Town".data, "WA".data, "98101".data⟩ ∧
    split_address (some "1 Main St, Town, WA 98101".data) ≠
      split_address_specModel (some "1 Main St, Town, WA 98101".data) := by
  refine ⟨by decide, by decide, by decide⟩

/-- C6 (amended): for every kept row the Principal Office Address is split
on commas into trimmed non-blank segments; the output State is segment 2
*verbatim* (no two-letter extraction), and the Zipcode is the first 5-digit
run of segment 3 alone (empty when there is no fourth segment); a `NaN`
address gives four empty strings, and the extracted Zipcode is always
empty or exactly five digits. -/
theorem split_address_code_behavior :
    (∀ a : List Char,
      split_address (some a) =
        ⟨(commaSegments a).getD 0 [], (commaSegments a).getD 1 [],
         (commaSegments a).getD 2 [],
         (findDigitRun 5 ((commaSegments a).getD 3 [])).getD []⟩) ∧
    (∀ a : List Char, (split_address (some a)).zipc = [] ∨
      zip5Shape (split_address (some a)).zipc = true) ∧
    split_address none = ⟨[], [], [], []⟩ := by
  refine ⟨fun a => rfl, fun a => ?_, rfl⟩
  have hz : (split_address (some a)).zipc =
      (findDigitRun 5 ((commaSegments a).getD 3 [])).getD [] := rfl
  cases hf : findDigitRun 5 ((commaSegments a).getD 3 []) with
  | none =>
    left
    rw [hz, hf]
    rfl
  | some z =>
    right
    obtain ⟨hl, hd⟩ := findDigitRun_spec hf
    rw [hz, hf]
    exact zip5Shape_of_run hl hd

/-- C8 (counterexample): two uploads named `a.xlsx`, the first missing six
of the seven required columns, the second complete — the invalid file's
name is on the valid-names list thanks to its twin, so its rows reach the
combined output: the claim's "excluded entirely, contributes no rows"
fails when file names collide. -/
theorem combiner_dup_name_counterexample :
    hasAllRequired cmbInvalidTable = false ∧
    combine_files cmbDupFiles =
      .ok [(cmbInvalidTable.cols, [some "bad row".data]),
           (cmbValidTable.cols,
            [some "n".data, some "a".data, some "c".data, some "s".data,
             some "z".data, some "f".data, some "d".data])] := by
  refine ⟨by decide, by decide⟩

/-- C8 (amended): when the uploaded file names are distinct, every set
missing a required column is excluded and contributes no rows (every
combined row carries all seven required columns), the retained sets all
contribute their selected rows, and the distinct no-valid-data failure is
signalled exactly when no set has all seven columns.  (With duplicate
names, an invalid file sharing a name with a valid one slips into the
output — see the counterexample.) -/
theorem combiner_schema_validation (files : List UploadFile)
    (hnodup : (files.map (fun f => f.fname)).Nodup) :
    (∀ out, combine_files files = .ok out →
      ∀ p ∈ out, requiredCols.all (fun c => p.1.contains c) = true) ∧
    ((∃ e, combine_files files = .error e) ↔
      ∀ f ∈ files, hasAllRequired f.table = false) ∧
    (∀ out, combine_files files = .ok out →
      ∀ f ∈ files, hasAllRequired f.table = true →
        ∀ r ∈ select_rows f.table.rows (selectionFor files f.fname),
          (f.table.cols, r) ∈ out) := by
  have hframes : ∀ f ∈ files.filter
      (fun f => (validNames files).contains f.fname), hasAllRequired f.table = true := by
    intro f hf
    rw [List.mem_filter] at hf
    obtain ⟨hfm, hfv⟩ := hf
    have hfv := List.mem_of_elem_eq_true hfv
    unfold validNames at hfv
    rw [List.mem_map] at hfv
    obtain ⟨g, hg, hgn⟩ := hfv
    rw [List.mem_filter] at hg
    have : g = f := List.inj_on_of_nodup_map hnodup hg.1 hfm hgn
    rw [← this]
    exact hg.2
  refine ⟨?_, ⟨?_, ?_⟩, ?_⟩
  · intro out hout p hp
    unfold combine_files at hout
    split at hout
    · cases hout
    · rw [Except.ok.injEq] at hout
      subst hout
      rw [List.mem_flatMap] at hp
      obtain ⟨f, hf, hpr⟩ := hp
      rw [List.mem_map] at hpr
      obtain ⟨r, -, hr⟩ := hpr
      have hall := hframes f hf
      unfold hasAllRequired at hall
      rw [← hr]
      exact hall
  · rintro ⟨e, he⟩ f hf
    unfold combine_files at he
    split at he
    · rename_i hempty
      by_contra hval
      have hval' : hasAllRequired f.table = true := by
        cases hv : hasAllRequired f.table with
        | true => rfl
        | false => exact absurd hv hval
      have hmem : f ∈ files.filter
          (fun f => (validNames files).contains f.fname) := by
        rw [List.mem_filter]
        refine ⟨hf, ?_⟩
        apply List.elem_eq_true_of_mem
        unfold validNames
        rw [List.mem_map]
        exact ⟨f, List.mem_filter.mpr ⟨hf, hval'⟩, rfl⟩
      rw [List.isEmpty_eq_true] at hempty
      rw [hempty] at hmem
      cases hmem
    · cases he
  · intro hall
    unfold combine_files
    have hnv : validNames files = [] := by
      unfold validNames
      rw [List.map_eq_nil_iff, List.filter_eq_nil_iff]
      intro f hf
      rw [hall f hf]
      simp
    rw [if_pos (by
      rw [List.isEmpty_eq_true, List.filter_eq_nil_iff]
      intro f hf
      rw [hnv]
      simp)]
    exact ⟨_, rfl⟩
  · intro out hout f hf hval r hr
    unfold combine_files at hout
    split at hout
    · cases hout
    · rw [Except.ok.injEq] at hout
      subst hout
      rw [List.mem_flatMap]
      refine ⟨f, ?_, ?_⟩
      · rw [List.mem_filter]
        refine ⟨hf, ?_⟩
        apply List.elem_eq_true_of_mem
        unfold validNames
        rw [List.mem_map]
        exact ⟨f, List.mem_filter.mpr ⟨hf, hval⟩, rfl⟩
      · rw [List.mem_map]
        exact ⟨r, hr, rfl⟩

/-- C8 (witness): with distinct names `a.xlsx` (invalid) and `b.xlsx`
(valid), the combined output exists, and its single row carries all seven
required columns. -/
theorem combiner_schema_validation_witness :
    requiredCols.all (fun c =>
      ((cmbValidTable.cols,
        [some "n".data, some "a".data, some "c".data, some "s".data,
         some "z".data, some "f".data, some "d".data]).1).contains c) = true :=
  (combiner_schema_validation cmbDistinctFiles (by decide)).1
    [(cmbValidTable.cols,
      [some "n".data, some "a".data, some "c".data, some "s".data,
       some "z".data, some "f".data, some "d".data])] (by decide)
    (cmbValidTable.cols,
      [some "n".data, some "a".data, some "c".data, some "s".data,
       some "z".data, some "f".data, some "d".data]) (by decide)

theorem pdHead_sublist (n : Int) (xs : List α) : (pdHead n xs).Sublist xs := by
  unfold pdHead
  split
  · exact List.take_sublist _ _
  · exact List.take_sublist _ _

theorem pdTail_sublist (n : Int) (xs : List α) : (pdTail n xs).Sublist xs := by
  unfold pdTail
  split
  · exact List.drop_sublist _ _
  · exact List.drop_sublist _ _

theorem pdIloc_sublist (a b : Int) (xs : List α) : (pdIloc a b xs).Sublist xs := by
  simp only [pdIloc]
  exact (List.take_sublist _ _).trans (List.drop_sublist _ _)

theorem select_rows_core_sublist (xs : List α) (cs : List Char) :
    (select_rows_core xs cs).Sublist xs := by
  simp only [select_rows_core]
  repeat' split
  all_goals
    first
      | exact List.Sublist.refl xs
      | exact pdHead_sublist _ xs
      | exact pdTail_sublist _ xs
      | exact pdIloc_sublist _ _ xs

theorem firstMissing_none {cols names : List (List Char)}
    (h : ∀ c ∈ names, cols.contains c = true) : firstMissing cols names = none := by
  unfold firstMissing
  rw [List.find?_eq_none]
  intro c hc
  rw [h c hc]
  decide

/-- C9 (counterexample): a Washington CSV without the `Status` column makes
`process_washington_streamlit` raise `KeyError: 'Status'` from the very
first column access — the transformer does not resolve the missing-column
failure to a smaller result. -/
theorem wa_missing_column_raises :
    process_washington waNoStatusTable "01/01/2026".data =
      .error "Status".data := by
  decide

/-- C9 (amended): the Row Selector always returns a subsequence of its
input and never errors; the Florida parser is a total function of its
bytes (no error value in its type); the WV transformer returns normally
whenever its nine expected columns are present, and the WA transformer
whenever its five expected columns are present, the column names are
distinct, none of the synthesized names (`Address`, `City`, `State`,
`Zipcode`) is already a column, and at least one row passes its filter;
the Combiner errors only in the no-valid-upload case.  A transformer
*given rows lacking an expected column raises a `KeyError`* (surfaced by
the hosting framework, which survives), rather than producing an empty
result. -/
theorem core_ops_failure_modes :
    (∀ (xs : List Nat) (choice : String), (select_rows xs choice).Sublist xs) ∧
    (∀ t : Table, (∀ c ∈ wvRequiredCols, (t.cols.map pyStrip).contains c = true) →
      ∃ out, process_wv t = .ok out) ∧
    (∀ (t : Table) (added : List Char),
      (∀ c ∈ waRequiredCols, (t.cols.map pyStrip).contains c = true) →
      (t.cols.map pyStrip).Nodup →
      (∀ c ∈ ["Address".data, "City".data, "State".data, "Zipcode".data],
        (t.cols.map pyStrip).contains c = false) →
      (∃ row ∈ t.rows, waMask (t.cols.map pyStrip) row = true) →
      ∃ out, process_washington t added = .ok out) ∧
    (∀ files : List UploadFile, (∃ f ∈ files, hasAllRequired f.table = true) →
      ∃ out, combine_files files = .ok out) := by
  refine ⟨?_, ?_, ?_, ?_⟩
  · intro xs choice
    exact select_rows_core_sublist xs choice.data
  · intro t hcols
    simp only [process_wv, firstMissing_none hcols]
    exact ⟨_, rfl⟩
  · intro t added hcols hnodup hnc hrow
    have h4 : firstMissing (t.cols.map pyStrip)
        ["Status".data, "Principal Office Address".data,
         "Business Type".data, "Business Name".data] = none := by
      apply firstMissing_none
      intro c hc
      fin_cases hc
      · exact hcols "Status".data (by decide)
      · exact hcols "Principal Office Address".data (by decide)
      · exact hcols "Business Type".data (by decide)
      · exact hcols "Business Name".data (by decide)
    simp only [process_washington, h4]
    obtain ⟨row, hrm, hmask⟩ := hrow
    rw [if_neg (by
      rw [Bool.not_eq_true, List.isEmpty_eq_false_iff_exists_mem]
      exact ⟨row, List.mem_filter.mpr ⟨hrm, hmask⟩⟩)]
    rw [if_neg (by
      have := hcols "UBI#".data (by decide)
      rw [this]
      decide)]
    exact ⟨_, rfl⟩
  · intro files ⟨f, hf, hval⟩
    unfold combine_files
    rw [if_neg (by
      rw [Bool.not_eq_true, List.isEmpty_eq_false_iff_exists_mem]
      refine ⟨f, List.mem_filter.mpr ⟨hf, ?_⟩⟩
      apply List.elem_eq_true_of_mem
      unfold validNames
      rw [List.mem_map]
      exact ⟨f, List.mem_filter.mpr ⟨hf, hval⟩, rfl⟩)]
    exact ⟨_, rfl⟩

/-- C9 (witness): the amended theorem applied at concrete inputs: the
selector on `[1,2]` with `"first 1"`, the WV and WA transformers on clean
one-row tables, and the Combiner with one valid upload. -/
theorem core_ops_failure_modes_witness :
    (select_rows ([5, 6] : List Nat) "first 1").Sublist [5, 6] ∧
    (∃ out, process_wv wvGoodTable = .ok out) ∧
    (∃ out, process_washington waGoodTable "08/15/2025".data = .ok out) ∧
    (∃ out, combine_files cmbDistinctFiles = .ok out) :=
  ⟨core_ops_failure_modes.1 [5, 6] "first 1",
   core_ops_failure_modes.2.1 wvGoodTable (by decide),
   core_ops_failure_modes.2.2.1 waGoodTable "08/15/2025".data (by decide)
     (by decide) (by decide) ⟨waGoodRow, by decide, by decide⟩,
   core_ops_failure_modes.2.2.2 cmbDistinctFiles
     ⟨⟨"b.xlsx".data, cmbValidTable, "ALL"⟩, by decide, by decide⟩⟩

theorem utf8Step_ascii {b : Nat} (h : b < 128) (rest : List Nat) :
    utf8Step b rest = (some (Char.ofNat b), 1) := by
  unfold utf8Step
  rw [if_pos h]

theorem utf8Step_ff (rest : List Nat) : utf8Step 0xFF rest = (none, 1) := by
  unfold utf8Step
  rw [if_neg (by omega), if_neg (by decide), if_neg (by decide), if_neg (by decide)]

theorem utf8DecodeWith_ascii (repl : List Char) :
    ∀ (bs : List Nat), (∀ b ∈ bs, b < 128) →
      utf8DecodeWith repl bs = bs.map Char.ofNat := by
  intro bs
  induction bs with
  | nil => intro; rfl
  | cons b rest ih =>
    intro h
    rw [utf8DecodeWith]
    rw [utf8Step_ascii (h b (List.mem_cons_self _ _)) rest]
    simp only [Nat.sub_self, List.drop_zero]
    rw [ih (fun x hx => h x (List.mem_cons_of_mem _ hx))]
    rfl

theorem utf8DecodeWith_ff_skip (repl : List Char) :
    ∀ (pre post : List Nat), (∀ b ∈ pre, b < 128) →
      utf8DecodeWith repl (pre ++ 0xFF :: post) =
        pre.map Char.ofNat ++ repl ++ utf8DecodeWith repl post := by
  intro pre
  induction pre with
  | nil =>
    intro post _
    rw [List.nil_append, utf8DecodeWith, utf8Step_ff post]
    simp
  | cons b rest ih =>
    intro post h
    rw [List.cons_append, utf8DecodeWith,
      utf8Step_ascii (h b (List.mem_cons_self _ _)) (rest ++ 0xFF :: post)]
    simp only [Nat.sub_self, List.drop_zero]
    rw [ih post (fun x hx => h x (List.mem_cons_of_mem _ hx))]
    rfl

/-- C7 (counterexample): on the amended Florida line with the invalid byte
`0xFF` embedded inside the entity identifier, the code's `errors="ignore"`
decoding *drops* the byte — the identifier's digits rejoin and the full
record is produced — whereas decoding that *replaces* invalid sequences
(the claim's reading) would break the `^[A-Z]\d{11}` match and produce no
record. -/
theorem florida_decode_ignore_counterexample :
    process_florida_full flFFBytes [] = [flAmendedRow] ∧
    process_florida_full_replaceModel flFFBytes [] = [] := by
  refine ⟨by decide, by decide⟩

/-- C7 (amended): `process_florida` accepts arbitrary byte content and
never raises (it is a total function); embedded NUL characters are
replaced by spaces before parsing (mapping NUL to space in a line leaves
its parse unchanged); and an invalid byte sequence is *dropped* (ignored)
during lenient decoding — inserting `0xFF` into ASCII content leaves the
output exactly as if the byte were absent — rather than replaced. -/
theorem florida_lenient_decoding :
    (∀ raw : List Char, flParseLine (raw.map nulToSpace) = flParseLine raw) ∧
    (∀ pre post : List Nat, (∀ b ∈ pre, b < 128) → (∀ b ∈ post, b < 128) →
      ∀ exact : List Char,
        process_florida_full (pre ++ 0xFF :: post) exact =
          process_florida_full (pre ++ post) exact ∧
        process_florida_mailing (pre ++ 0xFF :: post) exact =
          process_florida_mailing (pre ++ post) exact) := by
  constructor
  · intro raw
    unfold flParseLine
    have hmap : (raw.map nulToSpace).map nulToSpace = raw.map nulToSpace := by
      rw [List.map_map]
      apply List.map_congr_left
      intro c _
      by_cases hc : c = '\x00' <;> simp [nulToSpace, hc]
    rw [hmap]
  · intro pre post hpre hpost exact
    have hdec : utf8DecodeWith [] (pre ++ 0xFF :: post) =
        utf8DecodeWith [] (pre ++ post) := by
      rw [utf8DecodeWith_ff_skip [] pre post hpre,
        utf8DecodeWith_ascii [] (pre ++ post) (by
          intro b hb
          rcases List.mem_append.mp hb with h | h
          · exact hpre b h
          · exact hpost b h)]
      rw [List.map_append, List.append_nil,
        utf8DecodeWith_ascii [] post hpost]
    constructor
    · unfold process_florida_full flRows
      rw [hdec]
    · unfold process_florida_mailing flRows
      rw [hdec]

/-- C7 (witness): the amended theorem applied at the concrete split of the
amended Florida line around the inserted `0xFF` byte. -/
theorem florida_lenient_decoding_witness :
    process_florida_full (asciiBytes "A123456" ++ 0xFF :: asciiBytes
        "78901SomeCo   X   123 Main St   Tampa,   33601   456 Oak Ave   Miami,   FL 33101   extra 08152024") [] =
      process_florida_full (asciiBytes "A123456" ++ asciiBytes
        "78901SomeCo   X   123 Main St   Tampa,   33601   456 Oak Ave   Miami,   FL 33101   extra 08152024") [] :=
  (florida_lenient_decoding.2 (asciiBytes "A123456") (asciiBytes
      "78901SomeCo   X   123 Main St   Tampa,   33601   456 Oak Ave   Miami,   FL 33101   extra 08152024")
    (by decide) (by decide) []).1

theorem zip5Shape_all_digit {z : List Char} (h : zip5Shape z = true) :
    z.all Char.isDigit = true := by
  unfold zip5Shape at h
  rw [Bool.and_eq_true_iff] at h
  exact h.2

theorem pyStrip_of_zip5 {z : List Char} (h : zip5Shape z = true) :
    pyStrip z = z :=
  pyStrip_of_digits (zip5Shape_all_digit h)

theorem split_address_zipc (addr : Option (List Char)) :
    (split_address addr).zipc = [] ∨ zip5Shape (split_address addr).zipc = true := by
  cases addr with
  | none => exact Or.inl rfl
  | some a =>
    have hz : (split_address (some a)).zipc =
        (findDigitRun 5 ((commaSegments a).getD 3 [])).getD [] := rfl
    cases hf : findDigitRun 5 ((commaSegments a).getD 3 []) with
    | none =>
      left
      rw [hz, hf]
      rfl
    | some z =>
      right
      obtain ⟨hl, hd⟩ := findDigitRun_spec hf
      rw [hz, hf]
      exact zip5Shape_of_run hl hd

theorem digitChar_mod_isDigit (x : Nat) :
    (Nat.digitChar (x % 10)).isDigit = true :=
  digitChar_isDigit (Nat.mod_lt _ (by omega))

theorem strfDate_shape (dt : PyDate) : dateShape (strfDate dt) = true := by
  simp [strfDate, padDigits2, padDigits4, dateShape, digitChar_mod_isDigit]

theorem strfDate_strip (dt : PyDate) : pyStrip (strfDate dt) = strfDate dt := by
  apply pyStrip_of_all_nonWs
  have hw : ∀ x : Nat, isPyWsCh (Nat.digitChar (x % 10)) = false :=
    fun x => isPyWsCh_of_isDigit (digitChar_mod_isDigit x)
  have hs : isPyWsCh '/' = false := by decide
  simp [strfDate, padDigits2, padDigits4, List.all_cons, hw, hs]

theorem wvZipVal_shape (cols : List (List Char)) (row : List (Option (List Char))) :
    zip5Shape (pyStrip (wvZipVal cols row)) = true ∨
      pyStrip (wvZipVal cols row) = "nan".data := by
  cases hf : findDigitRun 5 (cellToStr (getCell cols row "ZipCode".data)) with
  | none =>
    right
    simp only [wvZipVal, hf]
    decide
  | some z =>
    left
    obtain ⟨hl, hd⟩ := findDigitRun_spec hf
    simp only [wvZipVal, hf]
    rw [pyStrip_of_digits hd]
    exact zip5Shape_of_run hl hd

theorem wvFilingVal_shape (cols : List (List Char)) (row : List (Option (List Char))) :
    dateShape (pyStrip (wvFilingVal cols row)) = true ∨
      pyStrip (wvFilingVal cols row) = "nan".data := by
  cases hc : getCell cols row "Effective Date".data with
  | none =>
    right
    simp only [wvFilingVal, hc]
    decide
  | some s =>
    cases hp : pdFlexParseDate s with
    | none =>
      right
      simp only [wvFilingVal, hc, hp]
      decide
    | some dt =>
      left
      simp only [wvFilingVal, hc, hp]
      rw [strfDate_strip dt]
      exact strfDate_shape dt

/-- C1 (counterexample): a West Virginia row whose `ZipCode` cell is
`"ABC12"` (present, but with no 5-digit run) survives every filter and is
emitted with the Zipcode field equal to the literal string `"nan"` — not
five digits — because the failed regex extraction's `NaN` is rendered by
`astype(str)` before the blank-field check. -/
theorem std_record_shape_counterexample :
    process_wv wvZipBugTable =
      .ok [⟨"Acme LLC".data, "1 Main St".data, "Charleston".data, "WV".data,
            "nan".data, "01/02/2024".data, "123".data⟩] ∧
    zip5Shape "nan".data = false := by
  refine ⟨by decide, by decide⟩

/-- C1 (amended): every emitted Standard Record of the three transformers
has all seven fields non-empty after trimming.  The Filing Date is
`MM/DD/YYYY`-shaped for Florida, is the supplied stamp verbatim (trimmed)
for Washington — `MM/DD/YYYY` only when supplied as such — and for West
Virginia is `MM/DD/YYYY`-shaped or the literal string `"nan"`.  The
Zipcode is exactly five digits for Florida and Washington, and for West
Virginia five digits or the literal string `"nan"`. -/
theorem std_record_shapes :
    (∀ (bytes : List Nat) (exact : List Char),
      ∀ r ∈ process_florida_mailing bytes exact,
        stdAllNonBlank r = true ∧ dateShape r.filingDate = true ∧
        zip5Shape r.zipcode = true) ∧
    (∀ (t : Table) (added : List Char) (out : List StdRecord),
      process_washington t added = .ok out →
      ∀ r ∈ out, stdAllNonBlank r = true ∧ zip5Shape r.zipcode = true ∧
        r.filingDate = pyStrip added) ∧
    (∀ (t : Table) (out : List StdRecord), process_wv t = .ok out →
      ∀ r ∈ out, stdAllNonBlank r = true ∧
        (zip5Shape r.zipcode = true ∨ r.zipcode = "nan".data) ∧
        (dateShape r.filingDate = true ∨ r.filingDate = "nan".data)) := by
  refine ⟨?_, ?_, ?_⟩
  · intro bytes exact r hr
    unfold process_florida_mailing at hr
    rw [List.mem_filter] at hr
    obtain ⟨hmem, hnb⟩ := hr
    rw [List.mem_map] at hmem
    obtain ⟨row, hrow, hproj⟩ := hmem
    have hshape := flRows_shape (flFilterDate_sub hrow)
    have hnb' := hnb
    simp only [stdAllNonBlank, Bool.and_eq_true] at hnb'
    refine ⟨hnb, ?_, ?_⟩
    · rcases hshape.1 with h | h
      · exact absurd (hproj ▸ h : r.filingDate = [])
          (nonBlank_ne_nil (hproj ▸ hnb'.1.2))
      · exact hproj ▸ h
    · rcases hshape.2 with h | h
      · exact absurd (hproj ▸ h : r.zipcode = [])
          (nonBlank_ne_nil (hproj ▸ hnb'.1.1.2))
      · exact hproj ▸ h
  · intro t added out hout r hr
    simp only [process_washington] at hout
    split at hout
    · cases hout
    · split at hout
      · cases hout
      · split at hout
        · cases hout
        · rw [Except.ok.injEq] at hout
          subst hout
          rw [List.mem_filterMap] at hr
          obtain ⟨row, -, hrow⟩ := hr
          unfold waRowOut at hrow
          split at hrow
          · rename_i hnb
            rw [Option.some.injEq] at hrow
            subst hrow
            refine ⟨hnb, ?_, rfl⟩
            have hz := split_address_zipc
              (getCell (t.cols.map pyStrip) row "Principal Office Address".data)
            simp only [stdAllNonBlank, Bool.and_eq_true] at hnb
            rcases hz with h | h
            · exact absurd (show (waBuildRec (t.cols.map pyStrip) added row).zipcode = []
                from by rw [show (waBuildRec (t.cols.map pyStrip) added row).zipcode =
                  pyStrip (split_address (getCell (t.cols.map pyStrip) row
                    "Principal Office Address".data)).zipc from rfl, h]; rfl)
                (nonBlank_ne_nil hnb.1.1.2)
            · rw [show (waBuildRec (t.cols.map pyStrip) added row).zipcode =
                pyStrip (split_address (getCell (t.cols.map pyStrip) row
                  "Principal Office Address".data)).zipc from rfl]
              rw [pyStrip_of_zip5 h]
              exact h
          · cases hrow
  · intro t out hout r hr
    simp only [process_wv] at hout
    split at hout
    · cases hout
    · rw [Except.ok.injEq] at hout
      subst hout
      rw [List.mem_filterMap] at hr
      obtain ⟨row, -, hrow⟩ := hr
      unfold wvRowOut at hrow
      split at hrow
      · split at hrow
        · rename_i hnb
          rw [Option.some.injEq] at hrow
          subst hrow
          exact ⟨hnb, wvZipVal_shape _ _, wvFilingVal_shape _ _⟩
        · cases hrow
      · cases hrow

/-- C1 (witness): the amended shape theorem applied to the emitted records
of the concrete amended Florida line, the clean Washington table (stamp
`08/15/2025`) and the clean West Virginia table. -/
theorem std_record_shapes_witness :
    (stdAllNonBlank flAmendedStd = true ∧ dateShape flAmendedStd.filingDate = true ∧
      zip5Shape flAmendedStd.zipcode = true) ∧
    (stdAllNonBlank waGoodStd = true ∧ zip5Shape waGoodStd.zipcode = true ∧
      waGoodStd.filingDate = pyStrip "08/15/2025".data) ∧
    (stdAllNonBlank wvGoodStd = true ∧
      (zip5Shape wvGoodStd.zipcode = true ∨ wvGoodStd.zipcode = "nan".data) ∧
      (dateShape wvGoodStd.filingDate = true ∨ wvGoodStd.filingDate = "nan".data)) :=
  ⟨std_record_shapes.1 (asciiBytes flAmendedLine) [] flAmendedStd (by decide),
   std_record_shapes.2.1 waGoodTable "08/15/2025".data [waGoodStd] (by decide)
     waGoodStd (by decide),
   std_record_shapes.2.2 wvGoodTable [wvGoodStd] (by decide) wvGoodStd (by decide)⟩
